import Mathlib

/-!
Shallow embedding of the devtools-mcp log store and process supervisor.

The definitions below are direct translations of the TypeScript sources:
* `LogManager` and its operations come from the `LogManager` class
  (src/unnamed/part_000), including the `port|project` grouping, the
  per-group cap, the global eviction pass, filtering and clearing.
* `DevServerTool` and its operations come from src/src/tools/dev-server.ts,
  with the Node.js event-loop effects (spawn, exit observers, timers)
  represented by explicit oracles and a two-phase state (state at the moment
  the async operation returns, and state once queued callbacks have run).
* The HTTP ingestion endpoint comes from src/src/server/http-server.ts.

JavaScript truthiness on optional strings/numbers is modelled explicitly
(`strTruthy`, and `n ≠ 0` for numbers); JS `Array.prototype.sort` with the
comparator `(a, b) => b.timestamp - a.timestamp` is modelled by the stable
`List.mergeSort` with the corresponding total preorder.
-/

set_option maxHeartbeats 1000000

namespace DevtoolsMCP

/-- JS truthiness for a `string | undefined` value: `undefined` and `""` are
falsy, every other string is truthy. -/
def strTruthy : Option String → Bool
  | none => false
  | some s => !(s == "")

/-- One ingested browser log entry (types/browser-logs.ts `BrowserLogEntry`). -/
structure BrowserLogEntry where
  id : String
  timestamp : Nat
  level : String
  message : String
  url : String
  port : String
  project : String
  userAgent : Option String := none
  stack : Option String := none
deriving Repr, DecidableEq

/-- The `Omit<BrowserLogEntry, 'id'>` payload handed to `LogManager.addLog`;
`port`/`project` may be absent (`none` models JS `undefined`). -/
structure LogData where
  timestamp : Nat
  level : String
  message : String
  url : String
  port : Option String := none
  project : Option String := none
  userAgent : Option String := none
  stack : Option String := none
deriving Repr, DecidableEq

/-- Query filter (types/browser-logs.ts `LogFilter`). -/
structure LogFilter where
  port : Option String := none
  project : Option String := none
  level : Option (List String) := none
  timeRange : Option (Nat × Nat) := none
  limit : Option Nat := none
deriving Repr, DecidableEq

/-- The longest leading run of ASCII digits, as matched by a greedy `\d+`. -/
def digitsPrefix : List Char → List Char
  | [] => []
  | c :: cs => if c.isDigit then c :: digitsPrefix cs else []

/-- First match of the regex `localhost:(\d+)` over the character list:
scan left to right for the literal `localhost:` followed by at least one
digit and return the captured digit run. -/
def matchLocalhostPort : List Char → Option String
  | [] => none
  | c :: cs =>
    if List.isPrefixOf "localhost:".toList (c :: cs) then
      let ds := digitsPrefix (List.drop 10 (c :: cs))
      if ds.isEmpty then matchLocalhostPort cs else some (String.mk ds)
    else matchLocalhostPort cs

/-- The `Map<string, BrowserLogEntry[]>` of the log store, as an
insertion-ordered association list (JS `Map` preserves insertion order). -/
abbrev LogGroups := List (String × List BrowserLogEntry)

/-- State of the `LogManager` class (src/unnamed/part_000). -/
structure LogManager where
  logs : LogGroups := []
  logIdCounter : Nat := 0
deriving Repr, DecidableEq

/-- `maxLogsPerPort` constant of `LogManager`. -/
def maxLogsPerPort : Nat := 1000

/-- `maxTotalLogs` constant of `LogManager`. -/
def maxTotalLogs : Nat := 5000

/-- `Map.get`: the value stored under key `k`, if any. -/
def getGroup (m : LogGroups) (k : String) : Option (List BrowserLogEntry) :=
  (m.find? (fun g => g.1 == k)).map Prod.snd

/-- `Map.set`: replace the value under an existing key in place, otherwise
append a new key at the end (JS `Map` insertion-order semantics). -/
def setGroup (m : LogGroups) (k : String) (v : List BrowserLogEntry) : LogGroups :=
  if m.any (fun g => g.1 == k) then
    m.map (fun g => if g.1 == k then (k, v) else g)
  else m ++ [(k, v)]

/-- `Map.delete`: drop the entry stored under key `k`. -/
def deleteGroup (m : LogGroups) (k : String) : LogGroups :=
  m.filter (fun g => !(g.1 == k))

/-- Per-group cap from `addLog`: `portLogs.splice(0, portLogs.length -
this.maxLogsPerPort)` drops the oldest entries beyond `maxLogsPerPort`. -/
def trimGroup (l : List BrowserLogEntry) : List BrowserLogEntry :=
  if l.length > maxLogsPerPort then l.drop (l.length - maxLogsPerPort) else l

/-- Total number of stored entries across all groups. -/
def totalLogs (m : LogGroups) : Nat :=
  (m.map (fun g => g.2.length)).sum

/-- `enforceTotalLogLimit`: when the total exceeds `maxTotalLogs`, compute
`Math.ceil(excess / #groups)` and drop that many oldest entries from every
group that holds more than that many entries (smaller groups are skipped). -/
def enforceTotalLogLimit (m : LogGroups) : LogGroups :=
  let total := totalLogs m
  if total > maxTotalLogs then
    let excess := total - maxTotalLogs
    let toRemovePerPort := (excess + m.length - 1) / m.length
    m.map (fun g => if g.2.length > toRemovePerPort then (g.1, g.2.drop toRemovePerPort) else g)
  else m

/-- JS `x || 'dflt'` on a `string | undefined` value. -/
def jsOr (v : Option String) (dflt : String) : String :=
  if strTruthy v then v.getD "" else dflt

/-- `LogManager.addLog`: derive `port`/`project` from `url` when absent,
assign an id (`now` models `Date.now()`), append to the `port-project`
group, apply the per-group cap, then the global eviction pass. -/
def addLog (now : Nat) (logData : LogData) (st : LogManager) : BrowserLogEntry × LogManager :=
  let id := "log-" ++ Nat.repr now ++ "-" ++ Nat.repr st.logIdCounter
  let port : Option String :=
    if !(strTruthy logData.port) && !(logData.url == "") then
      some (match matchLocalhostPort logData.url.toList with
            | some p => p
            | none => "unknown")
    else logData.port
  let project : Option String :=
    if !(strTruthy logData.project) then
      some (if strTruthy port then "localhost:" ++ port.getD "" else "unknown")
    else logData.project
  let entry : BrowserLogEntry :=
    { id := id, timestamp := logData.timestamp, level := logData.level,
      message := logData.message, url := logData.url,
      port := jsOr port "unknown", project := jsOr project "unknown",
      userAgent := logData.userAgent, stack := logData.stack }
  let portKey := entry.port ++ "-" ++ entry.project
  let cur := (getGroup st.logs portKey).getD []
  let logs1 := setGroup st.logs portKey (trimGroup (cur ++ [entry]))
  let logs2 := enforceTotalLogLimit logs1
  (entry, { logs := logs2, logIdCounter := st.logIdCounter + 1 })

/-- The characters before the first `'-'`. -/
def takeBeforeHyphen : List Char → List Char
  | [] => []
  | c :: rest => if c = '-' then [] else c :: takeBeforeHyphen rest

/-- Split a character list at the first `'-'`: the first hyphen-separated
field, and — when a hyphen exists — the second field (the characters
between the first and the second hyphen). -/
def splitFirstHyphen : List Char → List Char × Option (List Char)
  | [] => ([], none)
  | c :: rest =>
    if c = '-' then ([], some (takeBeforeHyphen rest))
    else
      let ps := splitFirstHyphen rest
      (c :: ps.1, ps.2)

/-- JS `key.split('-', 2)` destructured as `[port, project]`: the first
hyphen-separated field, and the second one when the key contains a hyphen
(`none` models the JS `undefined` of a missing second field). -/
def jsSplitHyphen2 (s : String) : String × Option String :=
  let ps := splitFirstHyphen s.data
  (String.mk ps.1, ps.2.map String.mk)

/-- Group-selection predicate of `getLogs`: skip a group when a truthy
`filter.port` differs from the key's port field, or a truthy
`filter.project` differs from the key's project field. -/
def includeGroup (f : LogFilter) (key : String) : Bool :=
  let ps := jsSplitHyphen2 key
  (if strTruthy f.port then ps.1 == f.port.getD "" else true) &&
  (if strTruthy f.project then
     (match ps.2 with
      | some pr => pr == f.project.getD ""
      | none => false)
   else true)

/-- Level filter of `getLogs`: applied only when `filter.level` is a
non-empty array. -/
def levelFilter (f : LogFilter) (l : List BrowserLogEntry) : List BrowserLogEntry :=
  match f.level with
  | some lvls => if lvls.length > 0 then l.filter (fun e => lvls.contains e.level) else l
  | none => l

/-- Time-range filter of `getLogs`. -/
def timeFilter (f : LogFilter) (l : List BrowserLogEntry) : List BrowserLogEntry :=
  match f.timeRange with
  | some tr => l.filter (fun e => decide (tr.1 ≤ e.timestamp) && decide (e.timestamp ≤ tr.2))
  | none => l

/-- JS `allLogs.sort((a, b) => b.timestamp - a.timestamp)`: a stable sort
that puts larger timestamps first (ECMAScript guarantees sort stability;
any stable sort with respect to the comparator's preorder realizes it, and
the structural insertion sort below is stable: an element is inserted in
front of a later element exactly when the comparator orders it weakly
before it). -/
def sortByTimestampDesc (l : List BrowserLogEntry) : List BrowserLogEntry :=
  l.insertionSort (fun a b => b.timestamp ≤ a.timestamp)

/-- Limit of `getLogs`: `if (filter?.limit)` is a truthiness test, so a
limit of `0` is ignored. -/
def applyLimit (f : LogFilter) (l : List BrowserLogEntry) : List BrowserLogEntry :=
  match f.limit with
  | some n => if n ≠ 0 then l.take n else l
  | none => l

/-- `LogManager.getLogs`: concatenate the groups passing the key filter,
apply the level and time filters, sort by timestamp descending, then apply
the limit. -/
def getLogs (f : LogFilter) (st : LogManager) : List BrowserLogEntry :=
  let allLogs := ((st.logs.filter (fun g => includeGroup f g.1)).map Prod.snd).flatten
  applyLimit f (sortByTimestampDesc (timeFilter f (levelFilter f allLogs)))

/-- Key predicate of `clearLogs`: `(port && p === port) || (project && proj
=== project)` over the hyphen-split key. -/
def clearKeyMatches (port project : Option String) (k : String) : Bool :=
  let ps := jsSplitHyphen2 k
  (strTruthy port && ps.1 == port.getD "") ||
  (strTruthy project &&
    (match ps.2 with
     | some pr => pr == project.getD ""
     | none => false))

/-- `LogManager.clearLogs`: with a truthy `port` or `project`, collect the
matching keys and delete them; otherwise clear the whole map. -/
def clearLogs (port project : Option String) (st : LogManager) : LogManager :=
  if strTruthy port || strTruthy project then
    let keysToDelete := (st.logs.map Prod.fst).filter (clearKeyMatches port project)
    { st with logs := keysToDelete.foldl deleteGroup st.logs }
  else
    { st with logs := [] }

/-- Port-field match of a group key, used to state what `clearLogs` drops. -/
def keyPortMatches (k p : String) : Bool :=
  (jsSplitHyphen2 k).1 == p

/-- Project-field match of a group key, used to state what `clearLogs`
drops. -/
def keyProjectMatches (k pr : String) : Bool :=
  match (jsSplitHyphen2 k).2 with
  | some x => x == pr
  | none => false

/-- Spec-side predicate: "entry.port equals filter.port if given"; an
absent predicate excludes no entry. -/
def specPortPred (f : LogFilter) (e : BrowserLogEntry) : Bool :=
  match f.port with
  | some p => e.port == p
  | none => true

/-- Spec-side predicate: "entry.project equals filter.project if given". -/
def specProjectPred (f : LogFilter) (e : BrowserLogEntry) : Bool :=
  match f.project with
  | some pr => e.project == pr
  | none => true

/-- Spec-side predicate: "entry.level in the given level set". -/
def specLevelPred (f : LogFilter) (e : BrowserLogEntry) : Bool :=
  match f.level with
  | some lvls => lvls.contains e.level
  | none => true

/-- Spec-side predicate: "entry.timestamp within the given range". -/
def specTimePred (f : LogFilter) (e : BrowserLogEntry) : Bool :=
  match f.timeRange with
  | some tr => decide (tr.1 ≤ e.timestamp) && decide (e.timestamp ≤ tr.2)
  | none => true

/-- Combined conjunction of the optional entry-field predicates, following
the spec's description of `get(filter)` ("entry.port equals filter.port if
given, entry.project equals filter.project if given, entry.level in the
given level set, entry.timestamp within the given range"). -/
def specEntryMatches (f : LogFilter) (e : BrowserLogEntry) : Bool :=
  specPortPred f e && specProjectPred f e && specLevelPred f e && specTimePred f e

/-- `get(filter)` as the spec states it: the stored entries satisfying the
conjunction of the supplied predicates, sorted by timestamp descending,
with the limit applied last. Written from the spec's words, for comparison
with the source-translated `getLogs`. -/
def specGetLogs (f : LogFilter) (st : LogManager) : List BrowserLogEntry :=
  let entries := (st.logs.map Prod.snd).flatten
  let sorted := sortByTimestampDesc (entries.filter (specEntryMatches f))
  match f.limit with
  | some n => sorted.take n
  | none => sorted

/-! ### Process supervisor (src/src/tools/dev-server.ts)

The Node.js runtime effects are made explicit:
* a `SpawnOracle` carries the pid the OS assigns and whether the spawned
  process exits before the startup confirmation promise resolves;
* `savedStates` records every write of the registry to the state file
  (`saveState` appends the serialized registry);
* `spawnedPids` records every `spawn` call;
* the asynchronous `exit` observer (registered with `setImmediate`) runs
  after the `start` caller has resumed, so `startDevServerFull` exposes
  both the state at the moment `start` returns (`atReturn`) and the state
  once the queued observer callbacks have run (`settled`).
-/

/-- Lifecycle status of a managed dev server. -/
inductive ServerStatus
  | starting
  | running
  | stopped
  | error
deriving Repr, DecidableEq

/-- One registry entry (`DevServer` interface in dev-server.ts). The
`pid` is `none` when the spawned child never received a pid (failed
spawn). -/
structure DevServer where
  name : String
  pid : Option Nat
  command : String
  port : Nat
  cwd : String
  startTime : Nat
  logs : List String
  status : ServerStatus
deriving Repr, DecidableEq

/-- One element of the persisted state file (`SerializedDevServer`). -/
structure SerializedDevServer where
  name : String
  pid : Nat
  command : String
  port : Nat
  cwd : String
  startTime : Nat
  logs : List String
  status : ServerStatus
deriving Repr, DecidableEq

/-- State of the `DevServerTool` class together with its observable
effects: the history of state-file writes and of spawned processes. -/
structure DevServerTool where
  servers : List (String × DevServer) := []
  savedStates : List (List SerializedDevServer) := []
  spawnedPids : List (Option Nat) := []
deriving Repr, DecidableEq

/-- `maxLogLines` constant of `DevServerTool`. -/
def maxLogLines : Nat := 100

/-- `maxLogLength` constant of `DevServerTool`. -/
def maxLogLength : Nat := 1000

/-- `this.servers.get(name)`. -/
def getServer (t : DevServerTool) (name : String) : Option DevServer :=
  ((t.servers.find? (fun g => g.1 == name))).map Prod.snd

/-- `this.servers.set(name, server)` (JS `Map` insertion-order
semantics). -/
def setServer (t : DevServerTool) (name : String) (s : DevServer) : DevServerTool :=
  { t with servers :=
      if t.servers.any (fun g => g.1 == name) then
        t.servers.map (fun g => if g.1 == name then (name, s) else g)
      else t.servers ++ [(name, s)] }

/-- The bounded-buffer append at the heart of `DevServerTool.addLog`:
push the line, then `slice(-maxLogLines)` keeps only the most recent
`maxLogLines` entries. -/
def pushLogLine (logs : List String) (line : String) : List String :=
  let l := logs ++ [line]
  if l.length > maxLogLines then l.drop (l.length - maxLogLines) else l

/-- `DevServerTool.addLog`: no-op on an unknown name, otherwise prefix the
line with a timestamp and append it to the server's bounded buffer
(`ts` models `new Date().toISOString()`). -/
def addServerLog (ts serverName log : String) (t : DevServerTool) : DevServerTool :=
  match getServer t serverName with
  | none => t
  | some s => setServer t serverName { s with logs := pushLogLine s.logs ("[" ++ ts ++ "] " ++ log) }

/-- Overwrite the status of a registered server (the observer callbacks and
the `start`/`stop` bodies mutate `server.status` of the stored entry). -/
def setServerStatus (t : DevServerTool) (name : String) (st : ServerStatus) : DevServerTool :=
  match getServer t name with
  | none => t
  | some s => setServer t name { s with status := st }

/-- `saveState`'s serialization loop: every entry whose process has a
truthy pid is written out with its last 10 log lines. -/
def serializeServers (t : DevServerTool) : List SerializedDevServer :=
  t.servers.filterMap (fun g =>
    match g.2.pid with
    | some p =>
      if p ≠ 0 then
        some { name := g.2.name, pid := p, command := g.2.command, port := g.2.port,
               cwd := g.2.cwd, startTime := g.2.startTime,
               logs := g.2.logs.drop (g.2.logs.length - 10), status := g.2.status }
      else none
    | none => none)

/-- `saveState`: append the serialized registry to the state file history. -/
def saveState (t : DevServerTool) : DevServerTool :=
  { t with savedStates := t.savedStates ++ [serializeServers t] }

/-- `isProcessAlive` on a reattached mock handle: a falsy pid reports dead,
otherwise `process.kill(pid, 0)` probes the OS (`alive` oracle). -/
def isProcessAliveMock (alive : Nat → Bool) (pid : Nat) : Bool :=
  if pid == 0 then false else alive pid

/-- The serialized form of an entry whose pid resolved (the record pushed
by `saveState` when `server.process.pid` is truthy). -/
def serializedOf (s : DevServer) : SerializedDevServer :=
  { name := s.name, pid := s.pid.getD 0, command := s.command, port := s.port,
    cwd := s.cwd, startTime := s.startTime,
    logs := s.logs.drop (s.logs.length - 10), status := s.status }

/-- The registry entry `loadState` reconstructs from one serialized entry:
a reattached mock handle for the pid, with status `running` when the
liveness probe succeeds and `stopped` otherwise. -/
def reattachedOf (alive : Nat → Bool) (ser : SerializedDevServer) : DevServer :=
  { name := ser.name, pid := some ser.pid, command := ser.command, port := ser.port,
    cwd := ser.cwd, startTime := ser.startTime, logs := ser.logs,
    status := if isProcessAliveMock alive ser.pid then ServerStatus.running
              else ServerStatus.stopped }

/-- `loadState`: for each serialized entry build a reattached handle for the
pid (which always succeeds — `attachToExistingProcess` never returns
`null`) and probe liveness; entries are installed with
`this.servers.set`. -/
def loadState (alive : Nat → Bool) (data : List SerializedDevServer) : DevServerTool :=
  data.foldl (fun t ser => setServer t ser.name (reattachedOf alive ser)) {}

/-- Arguments of `start_dev_server` after the `||`-defaulting at the top of
`startDevServer`. -/
structure StartArgs where
  command : String := "npm run dev"
  name : String := "default"
  port : Nat := 3000
  cwd : String := "."
deriving Repr, DecidableEq

/-- Runtime oracle for one `spawn` call: the pid the OS assigns, and
whether the child's `exit` event fires before the startup confirmation
promise resolves positively. -/
structure SpawnOracle where
  pid : Option Nat
  exitsEarly : Bool
deriving Repr, DecidableEq

/-- Result of one `start` call: its text response, the registry state at
the moment the call returns, and the state once the `setImmediate`-queued
exit observer has run. -/
structure StartOutcome where
  result : String
  atReturn : DevServerTool
  settled : DevServerTool
deriving Repr, DecidableEq

/-- The text of the already-running response of `startDevServer`. -/
def alreadyRunningText (name : String) (port : Nat) : String :=
  "Server \"" ++ name ++ "\" is already running on port " ++ Nat.repr port

/-- The text of the early-exit failure response of `startDevServer`. -/
def startFailedText (name : String) : String :=
  "Failed to start server \"" ++ name ++ "\". Process may have exited immediately. Check logs for details."

/-- The part of `startDevServer` past the already-running guard: record the
spawn, install a `starting` entry, then resolve the confirmation window.
When the child exits within the window the call marks the entry `error`
and returns a failure; the exit observer queued by `setImmediate` then
logs the exit and overwrites the status to `stopped` (it runs after the
awaiting caller resumed, because promise continuations are microtasks and
`setImmediate` callbacks are macrotasks). When the child survives the
window the entry becomes `running` and the state is saved. `now` models
`new Date()`, `tsExit`/`exitDesc` the timestamp and rendered exit
code/signal of the observer's log line. -/
def startSpawnPhase (o : SpawnOracle) (now : Nat) (tsExit exitDesc : String)
    (args : StartArgs) (t : DevServerTool) : StartOutcome :=
  let t1 : DevServerTool := { t with spawnedPids := t.spawnedPids ++ [o.pid] }
  let server : DevServer :=
    { name := args.name, pid := o.pid, command := args.command, port := args.port,
      cwd := args.cwd, startTime := now, logs := [], status := ServerStatus.starting }
  let t2 := setServer t1 args.name server
  if o.exitsEarly then
    let t3 := setServerStatus t2 args.name ServerStatus.error
    let t4 := addServerLog tsExit args.name ("[EXIT] Process exited with code " ++ exitDesc) t3
    let t5 := setServerStatus t4 args.name ServerStatus.stopped
    { result := startFailedText args.name, atReturn := t3, settled := t5 }
  else
    let t3 := saveState (setServerStatus t2 args.name ServerStatus.running)
    { result := "Development server \"" ++ args.name ++ "\" started successfully in background.",
      atReturn := t3, settled := t3 }

/-- `startDevServer` (dev-server.ts): reject when the name is already
`running`/`starting` without touching the registry; otherwise run the
spawn phase. -/
def startDevServerFull (o : SpawnOracle) (now : Nat) (tsExit exitDesc : String)
    (args : StartArgs) (t : DevServerTool) : StartOutcome :=
  match getServer t args.name with
  | some s =>
    if s.status = ServerStatus.running ∨ s.status = ServerStatus.starting then
      { result := alreadyRunningText args.name s.port, atReturn := t, settled := t }
    else
      startSpawnPhase o now tsExit exitDesc args t
  | none => startSpawnPhase o now tsExit exitDesc args t

/-- `stopDevServer` (dev-server.ts): not-found and already-stopped are
informational no-ops; otherwise the process is signalled, the call waits a
fixed grace period (during which the child's exit observer may fire —
`exitFires` oracle), unconditionally marks the entry `stopped`, appends a
`[STOP]` log line and saves state. -/
def stopDevServer (exitFires : Bool) (tsExit exitDesc ts : String)
    (name : String) (force : Bool) (t : DevServerTool) : String × DevServerTool :=
  match getServer t name with
  | none => ("Server \"" ++ name ++ "\" not found", t)
  | some s =>
    if s.status = ServerStatus.stopped then
      ("Server \"" ++ name ++ "\" is already stopped", t)
    else
      let t1 :=
        if exitFires then
          setServerStatus
            (addServerLog tsExit name ("[EXIT] Process exited with code " ++ exitDesc) t)
            name ServerStatus.stopped
        else t
      let t2 := setServerStatus t1 name ServerStatus.stopped
      let signalName := if force then "SIGKILL" else "SIGTERM"
      let t3 := addServerLog ts name ("[STOP] Server stopped by user (" ++ signalName ++ ")") t2
      let t4 := saveState t3
      ("Development server \"" ++ name ++ "\" stopped successfully", t4)

/-! ### HTTP ingestion endpoint (src/src/server/http-server.ts) -/

/-- The JSON body of a `POST /api/browser-logs` request: the four required
fields plus the optional ones, each possibly absent. -/
structure LogSubmission where
  timestamp : Option Nat := none
  level : Option String := none
  message : Option String := none
  url : Option String := none
  port : Option String := none
  project : Option String := none
  userAgent : Option String := none
  stack : Option String := none
deriving Repr, DecidableEq

/-- Response of the ingestion endpoint. -/
inductive PostResponse
  | badRequest (error : String)
  | ok (id : String)
deriving Repr, DecidableEq

/-- Truthiness of an optional JS number: absent, `0` (and `NaN`) are
falsy. -/
def natTruthy : Option Nat → Bool
  | none => false
  | some n => !(n == 0)

/-- The required-field validation of the endpoint:
`!timestamp || !level || !message || !url`. -/
def missingRequiredFields (b : LogSubmission) : Bool :=
  !(natTruthy b.timestamp) || !(strTruthy b.level) || !(strTruthy b.message) || !(strTruthy b.url)

/-- The payload forwarded to `logManager.addLog` by the endpoint (the four
required fields are known truthy on this path, so the defaults introduced
by `getD` never surface). -/
def submissionData (b : LogSubmission) : LogData :=
  { timestamp := b.timestamp.getD 0, level := b.level.getD "",
    message := b.message.getD "", url := b.url.getD "",
    port := b.port, project := b.project,
    userAgent := b.userAgent, stack := b.stack }

/-- `POST /api/browser-logs`: reject with a 400 "Missing required fields"
when any required field is falsy, otherwise hand the payload to
`logManager.addLog` and answer with the assigned id. -/
def postBrowserLogs (now : Nat) (b : LogSubmission) (st : LogManager) :
    PostResponse × LogManager :=
  if missingRequiredFields b then
    (PostResponse.badRequest "Missing required fields", st)
  else
    let r := addLog now (submissionData b) st
    (PostResponse.ok r.1.id, r.2)

/-! ### Concrete inputs used by the counterexamples and witnesses -/

/-- A port name of length `i + 1`; distinct indices give distinct ports. -/
def cexPort (i : Nat) : String :=
  String.mk (List.replicate (i + 1) 'a')

/-- The `i`-th submission of the many-groups scenario: an explicit port and
no project, so the derived group key is `cexPort i ++ "-localhost:" ++
cexPort i`. -/
def cexData (i : Nat) : LogData :=
  { timestamp := 0, level := "log", message := "m", url := "", port := some (cexPort i) }

/-- The group key produced by `cexData i`. -/
def cexKey (i : Nat) : String :=
  cexPort i ++ "-" ++ ("localhost:" ++ cexPort i)

/-- The entry stored for `cexData i` when it is the `i`-th add overall. -/
def cexEntry (i : Nat) : BrowserLogEntry :=
  { id := "log-" ++ Nat.repr 0 ++ "-" ++ Nat.repr i, timestamp := 0, level := "log",
    message := "m", url := "", port := cexPort i, project := "localhost:" ++ cexPort i }

/-- The log store that results from a sequence of `addLog` calls, starting
from the freshly constructed (empty) `LogManager`; each input pairs the
`Date.now()` value with the submitted payload. -/
def runLogStore (inputs : List (Nat × LogData)) : LogManager :=
  inputs.foldl (fun st p => (addLog p.1 p.2 st).2) {}

/-- The log store after ingesting `cexData 0, …, cexData (n-1)` in order. -/
def cexState (n : Nat) : LogManager :=
  runLogStore ((List.range n).map (fun i => (0, cexData i)))

/-- The submission of the spec's scenario: a browser error for
`http://localhost:3000/x` with no explicit port or project. -/
def scenarioData : LogData :=
  { timestamp := 1000, level := "error", message := "boom", url := "http://localhost:3000/x" }

/-- The log store holding exactly the scenario entry. -/
def scenarioState : LogManager :=
  (addLog 7 scenarioData {}).2

/-- A submission whose explicit project name contains a hyphen. -/
def hyphenData : LogData :=
  { timestamp := 5, level := "log", message := "x", url := "u",
    port := some "3000", project := some "my-app" }

/-- The log store holding exactly the hyphenated-project entry. -/
def hyphenState : LogManager :=
  (addLog 3 hyphenData {}).2

/-- A concrete running server entry with a resolved pid. -/
def wregServer : DevServer :=
  { name := "web", pid := some 42, command := "npm run dev", port := 3000,
    cwd := ".", startTime := 0, logs := ["[t] [STDOUT] ready"],
    status := ServerStatus.running }

/-- A concrete registry with one running server whose pid resolved. -/
def wreg : DevServerTool :=
  { servers := [("web", wregServer)] }

/-- A concrete registry with one entry whose spawn never produced a pid. -/
def wregNoPid : DevServerTool :=
  { servers := [("a",
      { name := "a", pid := none, command := "c", port := 1, cwd := ".",
        startTime := 0, logs := [], status := ServerStatus.error })] }

/-! ## Theorems -/

/-! ### Bounded log buffer (dev-server.ts `addLog`) -/

theorem pushLogLine_eq_drop (l : List String) (s : String) :
    pushLogLine l s = (l ++ [s]).drop (l.length + 1 - maxLogLines) := by
  unfold pushLogLine
  simp only [List.length_append, List.length_cons, List.length_nil]
  by_cases h : l.length + 1 > maxLogLines
  · simp [h]
  · have h0 : l.length + 1 - maxLogLines = 0 := by omega
    simp [h, h0]

theorem pushLogLine_length (l : List String) (s : String) :
    (pushLogLine l s).length = min (l.length + 1) maxLogLines := by
  rw [pushLogLine_eq_drop]
  simp only [List.length_drop, List.length_append, List.length_cons, List.length_nil]
  omega

theorem foldl_pushLogLine_eq (ls : List String) : ∀ acc : List String,
    acc.length ≤ maxLogLines →
    ls.foldl pushLogLine acc = (acc ++ ls).drop (acc.length + ls.length - maxLogLines) := by
  induction ls with
  | nil =>
    intro acc hacc
    have h0 : acc.length + List.length ([] : List String) - maxLogLines = 0 := by
      simp; omega
    rw [List.foldl_nil, List.append_nil, h0, List.drop_zero]
  | cons s tl ih =>
    intro acc hacc
    have hlen : (pushLogLine acc s).length ≤ maxLogLines := by
      rw [pushLogLine_length]; omega
    have step := ih (pushLogLine acc s) hlen
    rw [List.foldl_cons, step, pushLogLine_length, pushLogLine_eq_drop]
    have hle : acc.length + 1 - maxLogLines ≤ (acc ++ [s]).length := by simp
    rw [← List.drop_append_of_le_length hle]
    rw [List.drop_drop, List.append_assoc, List.singleton_append]
    congr 1
    simp only [List.length_cons]
    omega

/-- C5: for the bounded log buffer with capacity `maxLogLines = N`, after
`N + k` appends exactly `N` entries remain; they are the final (most
recent) `N` appended lines with their order preserved, so in particular the
`k` most recent lines form a suffix of the buffer; and no append ever
leaves the buffer with more than `N` entries. -/
theorem bounded_log_buffer_spec (lines : List String) (k : Nat)
    (h : lines.length = maxLogLines + k) :
    (lines.foldl pushLogLine []).length = maxLogLines ∧
    lines.foldl pushLogLine [] = lines.drop k ∧
    (k ≤ maxLogLines → List.IsSuffix (lines.drop maxLogLines) (lines.foldl pushLogLine [])) ∧
    (∀ n : Nat, ((lines.take n).foldl pushLogLine []).length ≤ maxLogLines) := by
  have key : lines.foldl pushLogLine [] = lines.drop k := by
    have := foldl_pushLogLine_eq lines [] (by simp [maxLogLines])
    simpa [h] using this
  refine ⟨?_, key, ?_, ?_⟩
  · rw [key]; simp [h]
  · intro hk
    rw [key]
    have : lines.drop maxLogLines = (lines.drop k).drop (maxLogLines - k) := by
      rw [List.drop_drop]
      congr 1
      omega
    rw [this]
    exact List.drop_suffix _ _
  · intro n
    have := foldl_pushLogLine_eq (lines.take n) [] (by simp [maxLogLines])
    simp only [List.nil_append, List.length_nil, Nat.zero_add] at this
    rw [this]
    simp only [List.length_drop]
    omega

/-- Witness for `bounded_log_buffer_spec` at `N + 1` appends. -/
theorem bounded_log_buffer_spec_witness :
    (List.replicate 101 "x").length = maxLogLines + 1 ∧
    ((List.replicate 101 "x").foldl pushLogLine []).length = maxLogLines :=
  ⟨by simp [maxLogLines],
   (bounded_log_buffer_spec (List.replicate 101 "x") 1 (by simp [maxLogLines])).1⟩

/-! ### Log store: total-size invariant (`addLog` / `enforceTotalLogLimit`) -/

theorem totalLogs_nil : totalLogs [] = 0 := rfl

theorem totalLogs_cons (g : String × List BrowserLogEntry) (m : LogGroups) :
    totalLogs (g :: m) = g.2.length + totalLogs m := by
  simp [totalLogs]

theorem totalLogs_append (m₁ m₂ : LogGroups) :
    totalLogs (m₁ ++ m₂) = totalLogs m₁ + totalLogs m₂ := by
  simp [totalLogs]

theorem trimGroup_length_le (l : List BrowserLogEntry) : (trimGroup l).length ≤ l.length := by
  rw [trimGroup]
  split
  · simp
  · exact le_rfl

theorem getGroup_cons_of_ne (g : String × List BrowserLogEntry) (m : LogGroups) (k : String)
    (hk : (g.1 == k) = false) : getGroup (g :: m) k = getGroup m k := by
  simp [getGroup, List.find?_cons, hk]

theorem setGroup_cons_of_ne (g : String × List BrowserLogEntry) (m : LogGroups) (k : String)
    (v : List BrowserLogEntry) (hk : (g.1 == k) = false) :
    setGroup (g :: m) k v = g :: setGroup m k v := by
  rw [setGroup, setGroup]
  rcases h2 : m.any (fun g => g.1 == k) with _ | _
  · simp [List.any_cons, hk, h2]
  · simp only [List.any_cons, hk, h2, Bool.false_or, if_pos, List.map_cons]
    have hne : g.1 ≠ k := by simpa using hk
    simp [hne]

theorem setGroup_total_le (m : LogGroups) (k : String) (v : List BrowserLogEntry)
    (hnd : (m.map Prod.fst).Nodup)
    (hv : v.length ≤ ((getGroup m k).getD []).length + 1) :
    totalLogs (setGroup m k v) ≤ totalLogs m + 1 := by
  induction m with
  | nil =>
    simp [getGroup] at hv
    simp [setGroup, totalLogs]
    omega
  | cons g rest ih =>
    rcases hk : (g.1 == k) with _ | _
    · rw [setGroup_cons_of_ne g rest k v hk, totalLogs_cons, totalLogs_cons]
      rw [getGroup_cons_of_ne g rest k hk] at hv
      have hnd' : (rest.map Prod.fst).Nodup := by
        rw [List.map_cons] at hnd
        exact hnd.of_cons
      have := ih hnd' hv
      omega
    · have hgk : g.1 = k := by simpa using hk
      have hfresh : ∀ x ∈ rest, (x.1 == k) = false := by
        intro x hx
        have hnotin : g.1 ∉ rest.map Prod.fst := by
          rw [List.map_cons] at hnd
          exact (List.nodup_cons.1 hnd).1
        have : x.1 ≠ k := by
          intro he
          exact hnotin (by
            rw [hgk, ← he]
            exact List.mem_map_of_mem Prod.fst hx)
        simpa using this
      have hany : (g :: rest).any (fun g => g.1 == k) = true := by
        simp [List.any_cons, hk]
      rw [setGroup, if_pos hany]
      have hmap : rest.map (fun g => if g.1 == k then (k, v) else g) = rest := by
        have := List.map_congr_left (l := rest)
          (f := fun g => if g.1 == k then (k, v) else g) (g := id)
          (fun x hx => by simp [hfresh x hx])
        simpa using this
      simp only [List.map_cons, hk, if_pos, hmap]
      rw [totalLogs_cons, totalLogs_cons]
      have hget : getGroup (g :: rest) k = some g.2 := by
        simp [getGroup, List.find?_cons, hk]
      rw [hget] at hv
      simp only [Option.getD_some] at hv
      show v.length + totalLogs rest ≤ g.2.length + totalLogs rest + 1
      omega

theorem setGroup_keys (m : LogGroups) (k : String) (v : List BrowserLogEntry) :
    (setGroup m k v).map Prod.fst =
      if m.any (fun g => g.1 == k) then m.map Prod.fst else m.map Prod.fst ++ [k] := by
  rw [setGroup]
  split
  · rw [List.map_map]
    apply List.map_congr_left
    intro x _
    rcases hx : (x.1 == k) with _ | _
    · have hne : x.1 ≠ k := by simpa using hx
      simp [Function.comp_apply, hne]
    · have he : x.1 = k := by simpa using hx
      simp [Function.comp_apply, he]
  · simp

theorem setGroup_nodup (m : LogGroups) (k : String) (v : List BrowserLogEntry)
    (hnd : (m.map Prod.fst).Nodup) : ((setGroup m k v).map Prod.fst).Nodup := by
  rw [setGroup_keys]
  split
  · exact hnd
  · rename_i hany
    have hnot : k ∉ m.map Prod.fst := by
      intro hmem
      obtain ⟨x, hx, hxe⟩ := List.mem_map.1 hmem
      have hb : (x.1 == k) = true := by simp [hxe]
      exact hany (List.any_eq_true.2 ⟨x, hx, hb⟩)
    refine List.Nodup.append hnd (List.nodup_singleton k) ?_
    intro a ha hb
    rw [List.mem_singleton] at hb
    subst hb
    exact hnot ha

theorem setGroup_length_bounds (m : LogGroups) (k : String) (v : List BrowserLogEntry) :
    m.length ≤ (setGroup m k v).length ∧ (setGroup m k v).length ≤ m.length + 1 := by
  have h := congrArg List.length (setGroup_keys m k v)
  simp only [List.length_map] at h
  rw [h]
  split <;> simp

theorem enforce_keys (m : LogGroups) :
    (enforceTotalLogLimit m).map Prod.fst = m.map Prod.fst := by
  rw [enforceTotalLogLimit]
  split
  · rw [List.map_map]
    apply List.map_congr_left
    intro x _
    simp only [Function.comp_apply]
    split <;> rfl
  · rfl

theorem enforce_length (m : LogGroups) :
    (enforceTotalLogLimit m).length = m.length := by
  have h := congrArg List.length (enforce_keys m)
  simpa using h

theorem totalLogs_map_dropOne_le (m : LogGroups) :
    totalLogs (m.map (fun g => if g.2.length > 1 then (g.1, g.2.drop 1) else g)) ≤
      totalLogs m := by
  induction m with
  | nil => simp [totalLogs]
  | cons g rest ih =>
    rw [List.map_cons, totalLogs_cons, totalLogs_cons]
    split
    · simp only [List.length_drop]
      omega
    · omega

theorem totalLogs_map_dropOne_lt (m : LogGroups) (h : m.length < totalLogs m) :
    totalLogs (m.map (fun g => if g.2.length > 1 then (g.1, g.2.drop 1) else g)) + 1 ≤
      totalLogs m := by
  induction m with
  | nil => simp [totalLogs] at h
  | cons g rest ih =>
    rw [List.map_cons, totalLogs_cons, totalLogs_cons]
    rw [List.length_cons, totalLogs_cons] at h
    split
    · rename_i hg
      have := totalLogs_map_dropOne_le rest
      simp only [List.length_drop]
      omega
    · rename_i hg
      have hrest : rest.length < totalLogs rest := by omega
      have := ih hrest
      omega

theorem totalLogs_pos_ne_nil (m : LogGroups) (h : 0 < totalLogs m) : m ≠ [] := by
  intro he
  rw [he, totalLogs_nil] at h
  omega

theorem enforce_total_bound (m : LogGroups)
    (h : totalLogs m ≤ max maxTotalLogs m.length + 1) :
    totalLogs (enforceTotalLogLimit m) ≤ max maxTotalLogs m.length := by
  by_cases hgt : totalLogs m > maxTotalLogs
  · have hm : m ≠ [] := totalLogs_pos_ne_nil m (by simp [maxTotalLogs] at hgt; omega)
    have hG : 0 < m.length := List.length_pos.2 hm
    have hsplit : totalLogs m ≤ maxTotalLogs + 1 ∨ totalLogs m ≤ m.length + 1 := by
      rcases Nat.le_total m.length maxTotalLogs with hc | hc
      · rw [Nat.max_eq_left hc] at h; exact Or.inl h
      · rw [Nat.max_eq_right hc] at h; exact Or.inr h
    have hcap : maxTotalLogs = 5000 := rfl
    have he1 : 1 ≤ totalLogs m - maxTotalLogs := by omega
    have he2 : totalLogs m - maxTotalLogs ≤ m.length := by
      rcases hsplit with hs | hs <;> omega
    have hr : (totalLogs m - maxTotalLogs + m.length - 1) / m.length = 1 := by
      have hlo : 1 ≤ (totalLogs m - maxTotalLogs + m.length - 1) / m.length := by
        rw [Nat.le_div_iff_mul_le hG]; omega
      have hhi : (totalLogs m - maxTotalLogs + m.length - 1) / m.length < 2 := by
        rw [Nat.div_lt_iff_lt_mul hG]; omega
      omega
    rw [enforceTotalLogLimit]
    simp only [if_pos hgt, hr]
    by_cases hTG : m.length < totalLogs m
    · have hlt := totalLogs_map_dropOne_lt m hTG
      rcases hsplit with hs | hs
      · exact le_trans (by omega) (Nat.le_max_left maxTotalLogs m.length)
      · exact le_trans (by omega) (Nat.le_max_right maxTotalLogs m.length)
    · have hle := totalLogs_map_dropOne_le m
      have hlen : totalLogs (m.map (fun g => if g.2.length > 1 then (g.1, g.2.drop 1) else g)) ≤
          m.length := by omega
      exact le_trans hlen (Nat.le_max_right _ _)
  · rw [enforceTotalLogLimit]
    simp only [if_neg hgt]
    exact le_trans (Nat.not_lt.1 hgt) (Nat.le_max_left _ _)

theorem enforce_noop_of_small (m : LogGroups) (h : ∀ g ∈ m, g.2.length ≤ 1) :
    enforceTotalLogLimit m = m := by
  rw [enforceTotalLogLimit]
  by_cases hgt : totalLogs m > maxTotalLogs
  · have hm : m ≠ [] := totalLogs_pos_ne_nil m (by simp [maxTotalLogs] at hgt; omega)
    have hG : 0 < m.length := List.length_pos.2 hm
    have hr : 1 ≤ (totalLogs m - maxTotalLogs + m.length - 1) / m.length := by
      rw [Nat.le_div_iff_mul_le hG]
      have : 1 ≤ totalLogs m - maxTotalLogs := by simp [maxTotalLogs] at hgt ⊢; omega
      omega
    simp only [if_pos hgt]
    have : ∀ g ∈ m, ¬ (g.2.length > (totalLogs m - maxTotalLogs + m.length - 1) / m.length) := by
      intro g hg
      have := h g hg
      omega
    calc m.map _ = m.map id := List.map_congr_left (fun g hg => by simp [if_neg (this g hg)])
    _ = m := List.map_id m
  · simp only [if_neg hgt]

theorem addLog_logs_eq (now : Nat) (d : LogData) (st : LogManager) :
    ∃ k e, ((addLog now d st).2).logs =
      enforceTotalLogLimit (setGroup st.logs k (trimGroup ((getGroup st.logs k).getD [] ++ [e]))) :=
  ⟨_, _, rfl⟩

theorem addLog_step_inv (now : Nat) (d : LogData) (st : LogManager)
    (hnd : (st.logs.map Prod.fst).Nodup)
    (hb : totalLogs st.logs ≤ max maxTotalLogs st.logs.length) :
    ((((addLog now d st).2).logs).map Prod.fst).Nodup ∧
    totalLogs ((addLog now d st).2).logs ≤
      max maxTotalLogs (((addLog now d st).2).logs).length := by
  obtain ⟨k, e, hlogs⟩ := addLog_logs_eq now d st
  rw [hlogs]
  set v := trimGroup ((getGroup st.logs k).getD [] ++ [e]) with hv
  have hvlen : v.length ≤ ((getGroup st.logs k).getD []).length + 1 := by
    calc v.length ≤ ((getGroup st.logs k).getD [] ++ [e]).length := trimGroup_length_le _
    _ = ((getGroup st.logs k).getD []).length + 1 := by simp
  have htot : totalLogs (setGroup st.logs k v) ≤ totalLogs st.logs + 1 :=
    setGroup_total_le st.logs k v hnd hvlen
  have hlb := setGroup_length_bounds st.logs k v
  have hbound : totalLogs (setGroup st.logs k v) ≤
      max maxTotalLogs (setGroup st.logs k v).length + 1 := by
    have hmx : max maxTotalLogs st.logs.length ≤ max maxTotalLogs (setGroup st.logs k v).length :=
      max_le_max le_rfl hlb.1
    omega
  have hfin := enforce_total_bound (setGroup st.logs k v) hbound
  constructor
  · rw [enforce_keys]
    exact setGroup_nodup st.logs k v hnd
  · rw [enforce_length]
    exact hfin

theorem runLogStore_cons (p : Nat × LogData) (inputs : List (Nat × LogData)) :
    ∀ st : LogManager,
      (p :: inputs).foldl (fun st q => (addLog q.1 q.2 st).2) st =
        inputs.foldl (fun st q => (addLog q.1 q.2 st).2) ((addLog p.1 p.2 st).2) := by
  intro st
  rfl

theorem foldl_addLog_inv (inputs : List (Nat × LogData)) : ∀ st : LogManager,
    (st.logs.map Prod.fst).Nodup →
    totalLogs st.logs ≤ max maxTotalLogs st.logs.length →
    (((inputs.foldl (fun st q => (addLog q.1 q.2 st).2) st).logs).map Prod.fst).Nodup ∧
    totalLogs (inputs.foldl (fun st q => (addLog q.1 q.2 st).2) st).logs ≤
      max maxTotalLogs ((inputs.foldl (fun st q => (addLog q.1 q.2 st).2) st).logs).length := by
  induction inputs with
  | nil =>
    intro st hnd hb
    exact ⟨hnd, hb⟩
  | cons p tl ih =>
    intro st hnd hb
    rw [runLogStore_cons]
    obtain ⟨hnd', hb'⟩ := addLog_step_inv p.1 p.2 st hnd hb
    exact ih _ hnd' hb'

/-- C1 (amended): for every sequence of `addLog` calls on the log store,
the total number of stored entries is bounded by the larger of the global
cap `maxTotalLogs` and the number of `port|project` groups; consequently
the total stays at or under the global cap whenever the number of distinct
groups does not exceed the cap. (The unconditional bound of the original
claim fails once more than `maxTotalLogs` distinct groups exist, because
`enforceTotalLogLimit` skips every group holding at most
`toRemovePerPort` entries — see the counterexample.) -/
theorem logstore_total_bound (inputs : List (Nat × LogData)) :
    totalLogs (runLogStore inputs).logs ≤
      max maxTotalLogs ((runLogStore inputs).logs).length ∧
    (((runLogStore inputs).logs).length ≤ maxTotalLogs →
      totalLogs (runLogStore inputs).logs ≤ maxTotalLogs) := by
  have h := foldl_addLog_inv inputs {} (by simp) (by simp [totalLogs])
  refine ⟨h.2, fun hlen => ?_⟩
  have := h.2
  rw [runLogStore]
  rw [runLogStore] at hlen
  exact le_trans this (Nat.max_le.2 ⟨le_rfl, hlen⟩)

/-- Witness for `logstore_total_bound`: a single add keeps the store within
the global cap. -/
theorem logstore_total_bound_witness :
    ((runLogStore [(0, cexData 0)]).logs).length ≤ maxTotalLogs ∧
    totalLogs (runLogStore [(0, cexData 0)]).logs ≤ maxTotalLogs :=
  ⟨by decide, (logstore_total_bound [(0, cexData 0)]).2 (by decide)⟩

theorem cexPort_ne_empty (i : Nat) : cexPort i ≠ "" := by
  intro h
  have hd := congrArg String.data h
  have : (List.replicate (i + 1) 'a').length = ([] : List Char).length := by
    exact congrArg List.length hd
  simp at this

theorem cexPort_beq_empty (i : Nat) : (cexPort i == "") = false :=
  beq_eq_false_iff_ne.2 (cexPort_ne_empty i)

theorem cexProject_beq_empty (i : Nat) : ("localhost:" ++ cexPort i == "") = false := by
  refine beq_eq_false_iff_ne.2 ?_
  intro h
  have hd := congrArg String.length h
  rw [String.length_append] at hd
  have h1 : (cexPort i).length = i + 1 := by
    show (List.replicate (i + 1) 'a').length = i + 1
    simp
  have h2 : ("localhost:" : String).length = 10 := by decide
  have h3 : ("" : String).length = 0 := by decide
  omega

theorem cexPort_length (i : Nat) : (cexPort i).length = i + 1 := by
  show (List.replicate (i + 1) 'a').length = i + 1
  simp

theorem cexKey_length (i : Nat) : (cexKey i).length = 2 * i + 13 := by
  rw [cexKey, String.length_append, String.length_append, String.length_append,
      cexPort_length]
  have h2 : ("localhost:" : String).length = 10 := by decide
  have h3 : ("-" : String).length = 1 := by decide
  omega

theorem cexKey_inj {i j : Nat} (h : cexKey i = cexKey j) : i = j := by
  have := congrArg String.length h
  rw [cexKey_length, cexKey_length] at this
  omega

theorem cexKey_beq_false {i j : Nat} (h : i ≠ j) : (cexKey i == cexKey j) = false :=
  beq_eq_false_iff_ne.2 (fun he => h (cexKey_inj he))

theorem setGroup_append_of_any_false (m : LogGroups) (k : String) (v : List BrowserLogEntry)
    (h : m.any (fun g => g.1 == k) = false) : setGroup m k v = m ++ [(k, v)] := by
  rw [setGroup]
  simp [h]

theorem addLog_fresh (st : LogManager) (n : Nat)
    (hget : getGroup st.logs (cexKey n) = none)
    (hany : st.logs.any (fun g => g.1 == cexKey n) = false)
    (hctr : st.logIdCounter = n) :
    (addLog 0 (cexData n) st).2 =
      { logs := enforceTotalLogLimit (st.logs ++ [(cexKey n, [cexEntry n])]),
        logIdCounter := n + 1 } := by
  rw [addLog]
  simp only [cexData, strTruthy, cexPort_beq_empty, Bool.not_false, Bool.not_true,
    Bool.false_and, Bool.and_false, if_neg, Bool.false_eq_true, reduceIte, Option.getD_some]
  simp only [jsOr, strTruthy, cexPort_beq_empty, cexProject_beq_empty, Bool.not_false,
    if_pos, Option.getD_some]
  have hkey : cexPort n ++ "-" ++ ("localhost:" ++ cexPort n) = cexKey n := rfl
  rw [hkey, hget, hctr]
  simp only [Option.getD_none, List.nil_append]
  rw [setGroup_append_of_any_false st.logs (cexKey n) _ hany]
  rfl

theorem cexState_succ (n : Nat) :
    cexState (n + 1) = (addLog 0 (cexData n) (cexState n)).2 := by
  rw [cexState, cexState, runLogStore, runLogStore, List.range_succ, List.map_append,
      List.foldl_append]
  rfl

theorem cexState_spec (n : Nat) :
    (cexState n).logs = (List.range n).map (fun i => (cexKey i, [cexEntry i])) ∧
    (cexState n).logIdCounter = n := by
  induction n with
  | zero => exact ⟨rfl, rfl⟩
  | succ n ih =>
    obtain ⟨hlogs, hctr⟩ := ih
    have hnot : ∀ g ∈ (cexState n).logs, (g.1 == cexKey n) = false := by
      intro g hg
      rw [hlogs] at hg
      obtain ⟨i, hi, rfl⟩ := List.mem_map.1 hg
      exact cexKey_beq_false (Nat.ne_of_lt (List.mem_range.1 hi))
    have hget : getGroup (cexState n).logs (cexKey n) = none := by
      rw [getGroup, List.find?_eq_none.2 (fun x hx => by simp [hnot x hx])]
      rfl
    have hany : (cexState n).logs.any (fun g => g.1 == cexKey n) = false := by
      rw [List.any_eq_false]
      intro x hx
      simp [hnot x hx]
    rw [cexState_succ, addLog_fresh (cexState n) n hget hany hctr]
    have hsmall : ∀ g ∈ (cexState n).logs ++ [(cexKey n, [cexEntry n])], g.2.length ≤ 1 := by
      intro g hg
      rcases List.mem_append.1 hg with hg | hg
      · rw [hlogs] at hg
        obtain ⟨i, _, rfl⟩ := List.mem_map.1 hg
        simp
      · rw [List.mem_singleton] at hg
        rw [hg]
        simp
    refine ⟨?_, rfl⟩
    rw [enforce_noop_of_small _ hsmall, hlogs, List.range_succ, List.map_append]
    rfl

theorem totalLogs_singleton_map (n : Nat) :
    totalLogs ((List.range n).map (fun i => (cexKey i, [cexEntry i]))) = n := by
  induction n with
  | zero => rfl
  | succ n ih =>
    rw [List.range_succ, List.map_append, totalLogs_append, ih]
    rfl

/-- C1 counterexample: submitting 5001 entries under 5001 distinct ports
leaves 5001 singleton groups; the global eviction pass removes nothing
(every group is at or below the per-group removal quota), so the total
stored count 5001 exceeds the global cap `maxTotalLogs = 5000` after the
last add completes. -/
theorem logstore_total_cap_cex :
    maxTotalLogs < totalLogs (cexState 5001).logs := by
  rw [(cexState_spec 5001).1, totalLogs_singleton_map]
  decide

/-! ### Log store: `clearLogs` -/

theorem foldl_deleteGroup (ks : List String) : ∀ m : LogGroups,
    ks.foldl deleteGroup m = m.filter (fun g => decide (g.1 ∉ ks)) := by
  induction ks with
  | nil =>
    intro m
    simp [List.filter_true]
  | cons k tl ih =>
    intro m
    rw [List.foldl_cons, ih (deleteGroup m k), deleteGroup, List.filter_filter]
    apply List.filter_congr
    intro g _
    by_cases h : g.1 = k
    · simp [h]
    · simp [h]

/-- C7: `clearLogs` with neither a (truthy) port nor project drops every
group; with either given it drops exactly the groups whose key matches the
supplied port on the port dimension or the supplied project on the project
dimension (OR semantics), leaving every other group in place and
unmodified (the result is a filter of the original group list). -/
theorem clear_logs_spec (port project : Option String) (st : LogManager) :
    (strTruthy port = false → strTruthy project = false →
      (clearLogs port project st).logs = []) ∧
    ((strTruthy port || strTruthy project) = true →
      (clearLogs port project st).logs =
        st.logs.filter (fun g =>
          !((strTruthy port && keyPortMatches g.1 (port.getD "")) ||
            (strTruthy project && keyProjectMatches g.1 (project.getD ""))))) := by
  constructor
  · intro hp hpr
    rw [clearLogs, if_neg (by simp [hp, hpr])]
  · intro hc
    rw [clearLogs, if_pos hc]
    show ((st.logs.map Prod.fst).filter (clearKeyMatches port project)).foldl
        deleteGroup st.logs = _
    rw [foldl_deleteGroup]
    apply List.filter_congr
    intro g hg
    have hmem : g.1 ∈ st.logs.map Prod.fst := List.mem_map_of_mem Prod.fst hg
    have harm : clearKeyMatches port project g.1 =
        ((strTruthy port && keyPortMatches g.1 (port.getD "")) ||
         (strTruthy project && keyProjectMatches g.1 (project.getD ""))) := rfl
    by_cases h : clearKeyMatches port project g.1 = true
    · have hmemf : g.1 ∈ (st.logs.map Prod.fst).filter (clearKeyMatches port project) :=
        List.mem_filter.2 ⟨hmem, h⟩
      rw [decide_eq_false (not_not_intro hmemf), ← harm, h]
      decide
    · have hnm : g.1 ∉ (st.logs.map Prod.fst).filter (clearKeyMatches port project) := by
        intro hx
        exact h (List.mem_filter.1 hx).2
      have hb : clearKeyMatches port project g.1 = false := Bool.eq_false_iff.2 h
      rw [decide_eq_true hnm, ← harm, hb]
      decide

/-- Witness for `clear_logs_spec`: clearing by port `"3000"` on the
scenario store, and clearing with no arguments. -/
theorem clear_logs_spec_witness :
    (strTruthy (some "3000") || strTruthy (none : Option String)) = true ∧
    (clearLogs (some "3000") none scenarioState).logs =
      scenarioState.logs.filter (fun g =>
        !((strTruthy (some "3000") && keyPortMatches g.1 ((some "3000").getD "")) ||
          (strTruthy (none : Option String) &&
            keyProjectMatches g.1 ((none : Option String).getD "")))) ∧
    (clearLogs none none scenarioState).logs = [] :=
  ⟨by decide,
   (clear_logs_spec (some "3000") none scenarioState).2 (by decide),
   (clear_logs_spec none none scenarioState).1 (by decide) (by decide)⟩

/-! ### Log store: `getLogs` versus the spec's filter semantics -/

theorem takeBeforeHyphen_eq_self (l : List Char) (h : '-' ∉ l) :
    takeBeforeHyphen l = l := by
  induction l with
  | nil => rfl
  | cons c rest ih =>
    have hc : c ≠ '-' := fun he => h (by simp [he])
    have hrest : '-' ∉ rest := fun hm => h (by simp [hm])
    simp [takeBeforeHyphen, hc, ih hrest]

theorem splitFirstHyphen_append (p pr : List Char) (hp : '-' ∉ p) :
    splitFirstHyphen (p ++ '-' :: pr) = (p, some (takeBeforeHyphen pr)) := by
  induction p with
  | nil => simp [splitFirstHyphen]
  | cons c cs ih =>
    have hc : c ≠ '-' := fun he => hp (by simp [he])
    have hcs : '-' ∉ cs := fun hm => hp (by simp [hm])
    simp [splitFirstHyphen, hc, ih hcs]

theorem jsSplitHyphen2_append (p pr : String) (hp : '-' ∉ p.data) (hpr : '-' ∉ pr.data) :
    jsSplitHyphen2 (p ++ "-" ++ pr) = (p, some pr) := by
  simp only [jsSplitHyphen2]
  have hdash : ("-" : String).data = ['-'] := by decide
  have hdata : (p ++ "-" ++ pr).data = p.data ++ '-' :: pr.data := by
    rw [String.data_append, String.data_append, hdash]
    simp
  rw [hdata, splitFirstHyphen_append p.data pr.data hp, takeBeforeHyphen_eq_self pr.data hpr]
  rfl

theorem levelFilter_eq (f : LogFilter) (l : List BrowserLogEntry) (hfl : f.level ≠ some []) :
    levelFilter f l = l.filter (specLevelPred f) := by
  rcases hl : f.level with _ | lvls
  · simp only [levelFilter, hl]
    symm
    rw [List.filter_eq_self]
    intro e _
    simp [specLevelPred, hl]
  · have hne : lvls ≠ [] := by
      intro h
      exact hfl (by rw [hl, h])
    have hpos : 0 < lvls.length := List.length_pos.2 hne
    simp only [levelFilter, hl, hpos, if_pos]
    apply List.filter_congr
    intro e _
    simp [specLevelPred, hl]

theorem timeFilter_eq (f : LogFilter) (l : List BrowserLogEntry) :
    timeFilter f l = l.filter (specTimePred f) := by
  rcases hl : f.timeRange with _ | tr
  · simp only [timeFilter, hl]
    symm
    rw [List.filter_eq_self]
    intro e _
    simp [specTimePred, hl]
  · simp only [timeFilter, hl]
    apply List.filter_congr
    intro e _
    simp [specTimePred, hl]

theorem flatten_filter_groups (groups : LogGroups)
    (q : String × List BrowserLogEntry → Bool) (qe pe : BrowserLogEntry → Bool)
    (hq : ∀ g ∈ groups, ∀ e ∈ g.2, q g = qe e) :
    (((groups.filter q).map Prod.snd).flatten).filter pe =
      ((groups.map Prod.snd).flatten).filter (fun e => qe e && pe e) := by
  induction groups with
  | nil => rfl
  | cons g tl ih =>
    have hg : ∀ e ∈ g.2, q g = qe e := hq g (by simp)
    have htl : ∀ g' ∈ tl, ∀ e ∈ g'.2, q g' = qe e := fun g' hg' => hq g' (by simp [hg'])
    rcases hqg : q g with _ | _
    · rw [List.filter_cons, hqg]
      simp only [Bool.false_eq_true, if_neg, List.map_cons, List.flatten_cons,
        List.filter_append, reduceIte]
      have hnil : g.2.filter (fun e => qe e && pe e) = [] := by
        rw [List.filter_eq_nil_iff]
        intro e he
        rw [← hg e he, hqg]
        simp
      rw [hnil, List.nil_append, ih htl]
    · rw [List.filter_cons, hqg]
      simp only [if_pos, List.map_cons, List.flatten_cons, List.filter_append]
      rw [ih htl]
      congr 1
      apply List.filter_congr
      intro e he
      rw [← hg e he, hqg, Bool.true_and]

/-- C6 (amended): `getLogs` coincides with the spec's description — the
stored entries satisfying the conjunction of the supplied predicates,
sorted by timestamp descending, limit applied last, with an absent
predicate excluding nothing — provided the port/project predicates are
read against the hyphen-split group key. The two readings agree whenever
every stored entry's port and project are hyphen-free (and the group keys
are the canonical `port-project` recomposition, as `addLog` guarantees),
and the optional filter fields are not degenerate (`""` port/project,
empty level list, limit `0`), which is the hypothesis below. For a stored
project containing a hyphen the original claim fails — see the
counterexample. -/
theorem get_logs_spec (f : LogFilter) (st : LogManager)
    (hkey : ∀ g ∈ st.logs, ∀ e ∈ g.2, g.1 = e.port ++ "-" ++ e.project)
    (hhyph : ∀ g ∈ st.logs, ∀ e ∈ g.2, '-' ∉ e.port.data ∧ '-' ∉ e.project.data)
    (hfp : f.port ≠ some "") (hfpr : f.project ≠ some "")
    (hfl : f.level ≠ some []) (hflim : f.limit ≠ some 0) :
    getLogs f st = specGetLogs f st := by
  have hq : ∀ g ∈ st.logs, ∀ e ∈ g.2,
      includeGroup f g.1 = (specPortPred f e && specProjectPred f e) := by
    intro g hg e he
    have hk := hkey g hg e he
    obtain ⟨hp, hpr⟩ := hhyph g hg e he
    have hsplit : jsSplitHyphen2 g.1 = (e.port, some e.project) := by
      rw [hk]
      exact jsSplitHyphen2_append e.port e.project hp hpr
    rcases hP : f.port with _ | p <;> rcases hPr : f.project with _ | pr
    · simp [includeGroup, hsplit, strTruthy, specPortPred, specProjectPred, hP, hPr]
    · have hne : pr ≠ "" := by
        intro h
        exact hfpr (by rw [hPr, h])
      have hb : (pr == "") = false := beq_eq_false_iff_ne.2 hne
      simp [includeGroup, hsplit, strTruthy, specPortPred, specProjectPred, hP, hPr, hb]
    · have hne : p ≠ "" := by
        intro h
        exact hfp (by rw [hP, h])
      have hb : (p == "") = false := beq_eq_false_iff_ne.2 hne
      simp [includeGroup, hsplit, strTruthy, specPortPred, specProjectPred, hP, hPr, hb]
    · have hne : p ≠ "" := by
        intro h
        exact hfp (by rw [hP, h])
      have hb : (p == "") = false := beq_eq_false_iff_ne.2 hne
      have hne' : pr ≠ "" := by
        intro h
        exact hfpr (by rw [hPr, h])
      have hb' : (pr == "") = false := beq_eq_false_iff_ne.2 hne'
      simp [includeGroup, hsplit, strTruthy, specPortPred, specProjectPred, hP, hPr, hb, hb']
  have hmain : timeFilter f (levelFilter f
        (((st.logs.filter (fun g => includeGroup f g.1)).map Prod.snd).flatten)) =
      ((st.logs.map Prod.snd).flatten).filter (specEntryMatches f) := by
    rw [levelFilter_eq f _ hfl, timeFilter_eq f _, List.filter_filter,
        flatten_filter_groups st.logs (fun g => includeGroup f g.1)
          (fun e => specPortPred f e && specProjectPred f e)
          (fun a => specTimePred f a && specLevelPred f a) hq]
    apply List.filter_congr
    intro e _
    cases h1 : specPortPred f e <;> cases h2 : specProjectPred f e <;>
      cases h3 : specLevelPred f e <;> cases h4 : specTimePred f e <;>
      simp [specEntryMatches, h1, h2, h3, h4]
  simp only [getLogs, specGetLogs]
  rw [hmain]
  rcases hl : f.limit with _ | n
  · simp [applyLimit, hl]
  · have hn : n ≠ 0 := by
      intro h
      exact hflim (by rw [hl, h])
    simp [applyLimit, hl, hn]

/-- Witness for `get_logs_spec`: the spec's own scenario — add an entry for
`http://localhost:3000/x`, then query by port `"3000"`; the query returns
exactly that entry with derived project `"localhost:3000"`. -/
theorem get_logs_spec_witness :
    (∀ g ∈ scenarioState.logs, ∀ e ∈ g.2, g.1 = e.port ++ "-" ++ e.project) ∧
    (∀ g ∈ scenarioState.logs, ∀ e ∈ g.2, '-' ∉ e.port.data ∧ '-' ∉ e.project.data) ∧
    getLogs { port := some "3000" } scenarioState =
      specGetLogs { port := some "3000" } scenarioState ∧
    getLogs { port := some "3000" } scenarioState =
      [{ id := "log-7-0", timestamp := 1000, level := "error", message := "boom",
         url := "http://localhost:3000/x", port := "3000", project := "localhost:3000" }] :=
  ⟨by decide, by decide,
   get_logs_spec { port := some "3000" } scenarioState (by decide) (by decide)
     (by decide) (by decide) (by decide) (by decide),
   by decide⟩

/-- C6 counterexample: the stored entry with explicit project `"my-app"`
satisfies the conjunction of the supplied predicates (project equals
`"my-app"`), yet `getLogs` returns nothing, because the group selection
splits the key `"3000-my-app"` at the first hyphen and compares the
filter's project against `"my"`. -/
theorem get_logs_field_filter_cex :
    getLogs { project := some "my-app" } hyphenState = [] ∧
    ((hyphenState.logs.map Prod.snd).flatten).filter
        (specEntryMatches { project := some "my-app" }) =
      [{ id := "log-3-0", timestamp := 5, level := "log", message := "x", url := "u",
         port := "3000", project := "my-app" }] :=
  ⟨by decide, by decide⟩

/-! ### Process supervisor: registry map lemmas -/

theorem find?_setList_self (l : List (String × DevServer)) (k : String) (s : DevServer) :
    (if l.any (fun g => g.1 == k) then l.map (fun g => if g.1 == k then (k, s) else g)
     else l ++ [(k, s)]).find? (fun g => g.1 == k) = some (k, s) := by
  induction l with
  | nil => simp
  | cons g tl ih =>
    rcases hk : (g.1 == k) with _ | _
    · rw [List.any_cons, hk, Bool.false_or]
      rcases ha : tl.any (fun g => g.1 == k) with _ | _
      · rw [ha] at ih
        simp only [Bool.false_eq_true, if_neg, reduceIte, List.cons_append]
        rw [List.find?_cons_of_neg _ (by simp [hk]), ← ih]
        simp
      · rw [ha] at ih
        simp only [if_pos, List.map_cons, hk, reduceIte]
        rw [List.find?_cons_of_neg _ (by simp [hk]), ← ih]
        simp
    · rw [List.any_cons, hk, Bool.true_or, if_pos rfl, List.map_cons, hk]
      simp only [reduceIte]
      rw [List.find?_cons_of_pos _ (by simp)]

theorem find?_setList_ne (l : List (String × DevServer)) (k k' : String) (s : DevServer)
    (hne : (k == k') = false) :
    (if l.any (fun g => g.1 == k) then l.map (fun g => if g.1 == k then (k, s) else g)
     else l ++ [(k, s)]).find? (fun g => g.1 == k') = l.find? (fun g => g.1 == k') := by
  induction l with
  | nil => simp [hne]
  | cons g tl ih =>
    rcases hk : (g.1 == k) with _ | _
    · rw [List.any_cons, hk, Bool.false_or]
      rcases hg' : (g.1 == k') with _ | _
      · rcases ha : tl.any (fun g => g.1 == k) with _ | _
        · rw [ha] at ih
          simp only [Bool.false_eq_true, if_neg, reduceIte, List.cons_append]
          rw [List.find?_cons_of_neg _ (by simp [hg']), List.find?_cons_of_neg _ (by simp [hg']),
            ← ih]
          simp
        · rw [ha] at ih
          simp only [if_pos, List.map_cons, hk, reduceIte]
          rw [List.find?_cons_of_neg _ (by simp [hg']), List.find?_cons_of_neg _ (by simp [hg']),
            ← ih]
          simp
      · rcases ha : tl.any (fun g => g.1 == k) with _ | _
        · simp only [Bool.false_eq_true, if_neg, reduceIte, List.cons_append]
          rw [List.find?_cons_of_pos _ (by simp [hg']), List.find?_cons_of_pos _ (by simp [hg'])]
        · simp only [if_pos, List.map_cons, hk, reduceIte]
          rw [List.find?_cons_of_pos _ (by simp [hg']), List.find?_cons_of_pos _ (by simp [hg'])]
          simp [hk]
    · have hgk : g.1 = k := by simpa using hk
      have hg' : (g.1 == k') = false := by
        rw [hgk]
        exact hne
      rw [List.any_cons, hk, Bool.true_or, if_pos rfl, List.map_cons, hk]
      simp only [reduceIte]
      rw [List.find?_cons_of_neg _ (by simp [hne]), List.find?_cons_of_neg _ (by simp [hg'])]
      rcases ha : tl.any (fun g => g.1 == k) with _ | _
      · rw [ha] at ih
        simp only [Bool.false_eq_true, if_neg, reduceIte] at ih
        have hfr : ∀ x ∈ tl, (x.1 == k) = false := by
          intro x hx
          have := (List.any_eq_false.1 ha) x hx
          simpa using this
        have hmapid := List.map_congr_left (l := tl)
          (f := fun g => if g.1 == k then (k, s) else g) (g := id)
          (fun x hx => by simp [hfr x hx])
        rw [show tl.map (fun g => if g.1 == k then (k, s) else g) = tl by simpa using hmapid]
      · rw [ha] at ih
        simpa using ih

theorem getServer_setServer_self (t : DevServerTool) (k : String) (s : DevServer) :
    getServer (setServer t k s) k = some s := by
  rw [getServer, setServer]
  simp only
  rw [find?_setList_self]
  rfl

theorem getServer_setServer_ne (t : DevServerTool) (k k' : String) (s : DevServer)
    (hne : (k == k') = false) :
    getServer (setServer t k s) k' = getServer t k' := by
  rw [getServer, setServer, getServer]
  simp only
  rw [find?_setList_ne t.servers k k' s hne]

theorem setServer_savedStates (t : DevServerTool) (k : String) (s : DevServer) :
    (setServer t k s).savedStates = t.savedStates := rfl

theorem setServer_spawnedPids (t : DevServerTool) (k : String) (s : DevServer) :
    (setServer t k s).spawnedPids = t.spawnedPids := rfl

theorem saveState_servers (t : DevServerTool) : (saveState t).servers = t.servers := rfl

theorem saveState_spawnedPids (t : DevServerTool) :
    (saveState t).spawnedPids = t.spawnedPids := rfl

theorem getServer_saveState (t : DevServerTool) (k : String) :
    getServer (saveState t) k = getServer t k := rfl

theorem getServer_setServerStatus_self (t : DevServerTool) (k : String) (st : ServerStatus) :
    getServer (setServerStatus t k st) k =
      (getServer t k).map (fun s => { s with status := st }) := by
  rcases h : getServer t k with _ | s
  · simp only [setServerStatus, h]
    rfl
  · simp only [setServerStatus, h]
    rw [getServer_setServer_self]
    rfl

theorem getServer_addServerLog_self (ts k log : String) (t : DevServerTool) :
    getServer (addServerLog ts k log t) k =
      (getServer t k).map
        (fun s => { s with logs := pushLogLine s.logs ("[" ++ ts ++ "] " ++ log) }) := by
  rcases h : getServer t k with _ | s
  · simp only [addServerLog, h]
    rfl
  · simp only [addServerLog, h]
    rw [getServer_setServer_self]
    rfl

theorem setServerStatus_savedStates (t : DevServerTool) (k : String) (st : ServerStatus) :
    (setServerStatus t k st).savedStates = t.savedStates := by
  rw [setServerStatus]
  rcases getServer t k with _ | s
  · rfl
  · rfl

theorem setServerStatus_spawnedPids (t : DevServerTool) (k : String) (st : ServerStatus) :
    (setServerStatus t k st).spawnedPids = t.spawnedPids := by
  rw [setServerStatus]
  rcases getServer t k with _ | s
  · rfl
  · rfl

theorem addServerLog_savedStates (ts k log : String) (t : DevServerTool) :
    (addServerLog ts k log t).savedStates = t.savedStates := by
  rw [addServerLog]
  rcases getServer t k with _ | s
  · rfl
  · rfl

theorem addServerLog_spawnedPids (ts k log : String) (t : DevServerTool) :
    (addServerLog ts k log t).spawnedPids = t.spawnedPids := by
  rw [addServerLog]
  rcases getServer t k with _ | s
  · rfl
  · rfl

/-! ### Process supervisor: start on an existing name (C8) -/

/-- C8: starting under a name whose entry is `running` or `starting`
leaves the registry (servers, persisted-state history, spawned processes)
completely unchanged, both at return and after the callback queue drains,
and answers with the text naming the existing entry's port; starting under
a name whose entry is `stopped` or `error` replaces the entry with a fresh
one built from the new arguments (and spawns a process). -/
theorem start_idempotent_spec (o : SpawnOracle) (now : Nat) (te td : String)
    (args : StartArgs) (t : DevServerTool) :
    (∀ s, getServer t args.name = some s →
      (s.status = ServerStatus.running ∨ s.status = ServerStatus.starting) →
      startDevServerFull o now te td args t =
        { result := "Server \"" ++ args.name ++ "\" is already running on port " ++
            Nat.repr s.port,
          atReturn := t, settled := t }) ∧
    (∀ s, getServer t args.name = some s →
      (s.status = ServerStatus.stopped ∨ s.status = ServerStatus.error) →
      ∃ s', getServer (startDevServerFull o now te td args t).atReturn args.name = some s' ∧
        s'.pid = o.pid ∧ s'.command = args.command ∧ s'.port = args.port ∧
        s'.cwd = args.cwd ∧ s'.startTime = now ∧
        (startDevServerFull o now te td args t).atReturn.spawnedPids =
          t.spawnedPids ++ [o.pid]) := by
  constructor
  · intro s hs hrun
    rw [startDevServerFull]
    simp only [hs]
    rw [if_pos hrun]
    rfl
  · intro s hs hse
    have hnot : ¬(s.status = ServerStatus.running ∨ s.status = ServerStatus.starting) := by
      rcases hse with h | h <;> simp [h]
    rw [startDevServerFull]
    simp only [hs]
    rw [if_neg hnot, startSpawnPhase]
    rcases he : o.exitsEarly with _ | _
    · simp only [he, Bool.false_eq_true, reduceIte]
      rw [getServer_saveState, getServer_setServerStatus_self, getServer_setServer_self]
      refine ⟨_, rfl, rfl, rfl, rfl, rfl, rfl, ?_⟩
      rw [saveState_spawnedPids, setServerStatus_spawnedPids, setServer_spawnedPids]
    · simp only [he, reduceIte]
      rw [getServer_setServerStatus_self, getServer_setServer_self]
      refine ⟨_, rfl, rfl, rfl, rfl, rfl, rfl, ?_⟩
      rw [setServerStatus_spawnedPids, setServer_spawnedPids]

/-- Witness for `start_idempotent_spec`: starting `"web"` again while it is
running changes nothing and reports the existing port 3000; starting a
stopped name replaces the entry. -/
theorem start_idempotent_spec_witness :
    startDevServerFull ⟨some 7, false⟩ 5 "T" "0, signal null"
        { command := "x", name := "web", port := 4000, cwd := "/tmp" } wreg =
      { result := "Server \"web\" is already running on port " ++ Nat.repr 3000,
        atReturn := wreg, settled := wreg } :=
  (start_idempotent_spec ⟨some 7, false⟩ 5 "T" "0, signal null"
      { command := "x", name := "web", port := 4000, cwd := "/tmp" } wreg).1
    wregServer rfl (Or.inl rfl)

/-! ### Process supervisor: stop (C9) -/

theorem stop_not_found (o : Bool) (te td ts name : String) (f : Bool) (t : DevServerTool)
    (h : getServer t name = none) :
    stopDevServer o te td ts name f t = ("Server \"" ++ name ++ "\" not found", t) := by
  rw [stopDevServer]
  simp only [h]

theorem stop_already_stopped (o : Bool) (te td ts name : String) (f : Bool) (t : DevServerTool)
    (s : DevServer) (hs : getServer t name = some s) (hstop : s.status = ServerStatus.stopped) :
    stopDevServer o te td ts name f t = ("Server \"" ++ name ++ "\" is already stopped", t) := by
  rw [stopDevServer]
  simp only [hs]
  rw [if_pos hstop]

theorem stop_effective (o : Bool) (te td ts name : String) (f : Bool) (t : DevServerTool)
    (s : DevServer) (hs : getServer t name = some s) (hns : s.status ≠ ServerStatus.stopped) :
    (stopDevServer o te td ts name f t).1 =
      "Development server \"" ++ name ++ "\" stopped successfully" ∧
    (∃ s', getServer (stopDevServer o te td ts name f t).2 name = some s' ∧
      s'.status = ServerStatus.stopped) ∧
    (∃ snap, (stopDevServer o te td ts name f t).2.savedStates = t.savedStates ++ [snap]) := by
  rw [stopDevServer]
  simp only [hs]
  rw [if_neg hns]
  simp only
  set t1 : DevServerTool :=
    (if o = true then
      setServerStatus
        (addServerLog te name ("[EXIT] Process exited with code " ++ td) t)
        name ServerStatus.stopped
     else t) with ht1
  have ht1saved : t1.savedStates = t.savedStates := by
    rw [ht1]
    rcases o with _ | _
    · simp
    · simp only [reduceIte]
      rw [setServerStatus_savedStates, addServerLog_savedStates]
  have ht1some : ∃ s1, getServer t1 name = some s1 := by
    rw [ht1]
    rcases o with _ | _
    · exact ⟨s, by simpa using hs⟩
    · simp only [reduceIte]
      rw [getServer_setServerStatus_self, getServer_addServerLog_self, hs]
      exact ⟨_, rfl⟩
  obtain ⟨s1, hs1⟩ := ht1some
  refine ⟨by trivial, ?_, ?_⟩
  · rw [getServer_saveState, getServer_addServerLog_self, getServer_setServerStatus_self, hs1]
    exact ⟨_, rfl, rfl⟩
  · have hgen : ∀ T : DevServerTool, T.savedStates = t.savedStates →
        ∃ snap, (saveState T).savedStates = t.savedStates ++ [snap] := by
      intro T hT
      refine ⟨serializeServers T, ?_⟩
      show T.savedStates ++ [serializeServers T] = t.savedStates ++ [serializeServers T]
      rw [hT]
    apply hgen
    rw [addServerLog_savedStates, setServerStatus_savedStates, ht1saved]

/-- C9: stopping twice in a row never throws (both calls are total and
return plain results): on an unknown name both calls return the not-found
text with the registry untouched; on a known name the first stop leaves
the entry with status `stopped`, and the second stop returns the
informational already-stopped text while returning the state of the first
stop unchanged (same entry, same logs). -/
theorem stop_idempotent_spec (t : DevServerTool) (name : String)
    (f1 f2 o1 o2 : Bool) (te1 td1 ts1 te2 td2 ts2 : String) :
    (getServer t name = none →
      stopDevServer o1 te1 td1 ts1 name f1 t = ("Server \"" ++ name ++ "\" not found", t) ∧
      stopDevServer o2 te2 td2 ts2 name f2 t = ("Server \"" ++ name ++ "\" not found", t)) ∧
    (∀ s, getServer t name = some s →
      (∃ s1, getServer (stopDevServer o1 te1 td1 ts1 name f1 t).2 name = some s1 ∧
        s1.status = ServerStatus.stopped) ∧
      stopDevServer o2 te2 td2 ts2 name f2 (stopDevServer o1 te1 td1 ts1 name f1 t).2 =
        ("Server \"" ++ name ++ "\" is already stopped",
         (stopDevServer o1 te1 td1 ts1 name f1 t).2)) := by
  constructor
  · intro h
    exact ⟨stop_not_found o1 te1 td1 ts1 name f1 t h, stop_not_found o2 te2 td2 ts2 name f2 t h⟩
  · intro s hs
    by_cases hstop : s.status = ServerStatus.stopped
    · have h1 := stop_already_stopped o1 te1 td1 ts1 name f1 t s hs hstop
      rw [h1]
      exact ⟨⟨s, hs, hstop⟩, stop_already_stopped o2 te2 td2 ts2 name f2 t s hs hstop⟩
    · obtain ⟨_, ⟨s1, hs1, hs1stop⟩, _⟩ :=
        stop_effective o1 te1 td1 ts1 name f1 t s hs hstop
      exact ⟨⟨s1, hs1, hs1stop⟩,
        stop_already_stopped o2 te2 td2 ts2 name f2 _ s1 hs1 hs1stop⟩

/-- Witness for `stop_idempotent_spec`: stopping the running `"web"` twice,
and stopping an unknown name. -/
theorem stop_idempotent_spec_witness :
    ((∃ s1, getServer (stopDevServer false "T" "D" "S" "web" false wreg).2 "web" = some s1 ∧
        s1.status = ServerStatus.stopped) ∧
      stopDevServer false "T" "D" "S" "web" true
          (stopDevServer false "T" "D" "S" "web" false wreg).2 =
        ("Server \"web\" is already stopped",
         (stopDevServer false "T" "D" "S" "web" false wreg).2)) ∧
    stopDevServer false "T" "D" "S" "nope" false wreg =
      ("Server \"nope\" not found", wreg) :=
  ⟨(stop_idempotent_spec wreg "web" false true false false "T" "D" "S" "T" "D" "S").2
      wregServer rfl,
   ((stop_idempotent_spec wreg "nope" false true false false "T" "D" "S" "T" "D" "S").1
      (by decide)).1⟩

/-! ### Process supervisor: start with an early-exiting child (C2) -/

theorem startFull_spawn_of_free (o : SpawnOracle) (now : Nat) (te td : String)
    (args : StartArgs) (t : DevServerTool)
    (hfree : getServer t args.name = none ∨
      ∃ s, getServer t args.name = some s ∧
        (s.status = ServerStatus.stopped ∨ s.status = ServerStatus.error)) :
    startDevServerFull o now te td args t = startSpawnPhase o now te td args t := by
  rcases hfree with h | ⟨s, hs, hse⟩
  · rw [startDevServerFull]
    simp only [h]
  · have hnot : ¬(s.status = ServerStatus.running ∨ s.status = ServerStatus.starting) := by
      rcases hse with h | h <;> simp [h]
    rw [startDevServerFull]
    simp only [hs]
    rw [if_neg hnot]

/-- C2 (amended): when `start` proceeds to spawn (no running/starting entry
under the name) and the child exits within the startup confirmation
window, the call returns the failure text and the entry's status is
`error` at the moment the call returns; the queued exit observer then
overwrites the status to `stopped`, so the settled status is `stopped` —
in neither phase is the status `running`. (The original claim's "resulting
status is error, taking the exit observer into account" fails: the settled
status is `stopped` — see the counterexample.) -/
theorem start_early_exit_spec (o : SpawnOracle) (now : Nat) (te td : String)
    (args : StartArgs) (t : DevServerTool)
    (hfree : getServer t args.name = none ∨
      ∃ s, getServer t args.name = some s ∧
        (s.status = ServerStatus.stopped ∨ s.status = ServerStatus.error))
    (hexit : o.exitsEarly = true) :
    (startDevServerFull o now te td args t).result = startFailedText args.name ∧
    (∃ s, getServer (startDevServerFull o now te td args t).atReturn args.name = some s ∧
      s.status = ServerStatus.error) ∧
    (∃ s, getServer (startDevServerFull o now te td args t).settled args.name = some s ∧
      s.status = ServerStatus.stopped) ∧
    (∀ s, getServer (startDevServerFull o now te td args t).atReturn args.name = some s →
      s.status ≠ ServerStatus.running) ∧
    (∀ s, getServer (startDevServerFull o now te td args t).settled args.name = some s →
      s.status ≠ ServerStatus.running) := by
  rw [startFull_spawn_of_free o now te td args t hfree, startSpawnPhase]
  simp only [hexit, reduceIte]
  refine ⟨by trivial, ?_, ?_, ?_, ?_⟩
  · rw [getServer_setServerStatus_self, getServer_setServer_self]
    exact ⟨_, rfl, rfl⟩
  · rw [getServer_setServerStatus_self, getServer_addServerLog_self,
      getServer_setServerStatus_self, getServer_setServer_self]
    exact ⟨_, rfl, rfl⟩
  · intro s hs'
    rw [getServer_setServerStatus_self, getServer_setServer_self] at hs'
    cases Option.some.inj hs'
    simp
  · intro s hs'
    rw [getServer_setServerStatus_self, getServer_addServerLog_self,
      getServer_setServerStatus_self, getServer_setServer_self] at hs'
    cases Option.some.inj hs'
    simp

/-- Witness for `start_early_exit_spec`: starting a fresh name with a
child that exits immediately yields the failure response. -/
theorem start_early_exit_spec_witness :
    getServer ({} : DevServerTool) "default" = none ∧
    (startDevServerFull ⟨some 9, true⟩ 3 "T" "0, signal null" {} {}).result =
      startFailedText "default" :=
  ⟨by decide,
   (start_early_exit_spec ⟨some 9, true⟩ 3 "T" "0, signal null" {} {}
      (Or.inl (by decide)) rfl).1⟩

/-- C2 counterexample: after the callback queue drains, the entry created
by a failed start is `stopped` (the exit observer's write), not `error` —
the claim's "resulting status is error (taking into account the
asynchronous exit observer)" does not hold of the settled state. -/
theorem start_early_exit_settled_cex :
    (getServer (startDevServerFull ⟨some 42, true⟩ 0 "T" "1, signal null" {} {}).settled
        "default").map DevServer.status = some ServerStatus.stopped ∧
    ServerStatus.stopped ≠ ServerStatus.error :=
  ⟨by decide, by decide⟩

/-! ### Process supervisor: persistence on start/stop (C4) -/

/-- C4 (amended): the registry is serialized to the state file exactly on
the successful-start path and on the effective-stop path; the
already-running start rejection, the early-exit start failure, the
not-found stop and the already-stopped stop all return without writing
the state file. (The original claim — every start/stop serializes before
returning — fails on the failure paths; see the counterexample.) -/
theorem persist_on_ops_spec (o : SpawnOracle) (now : Nat) (te td : String)
    (args : StartArgs) (t : DevServerTool) (oe : Bool) (ts : String)
    (name : String) (f : Bool) :
    (∀ s, getServer t args.name = some s →
      (s.status = ServerStatus.running ∨ s.status = ServerStatus.starting) →
      (startDevServerFull o now te td args t).atReturn.savedStates = t.savedStates) ∧
    ((getServer t args.name = none ∨
        ∃ s, getServer t args.name = some s ∧
          (s.status = ServerStatus.stopped ∨ s.status = ServerStatus.error)) →
      o.exitsEarly = true →
      (startDevServerFull o now te td args t).atReturn.savedStates = t.savedStates ∧
      (startDevServerFull o now te td args t).settled.savedStates = t.savedStates) ∧
    ((getServer t args.name = none ∨
        ∃ s, getServer t args.name = some s ∧
          (s.status = ServerStatus.stopped ∨ s.status = ServerStatus.error)) →
      o.exitsEarly = false →
      ∃ snap, (startDevServerFull o now te td args t).atReturn.savedStates =
        t.savedStates ++ [snap]) ∧
    (getServer t name = none →
      (stopDevServer oe te td ts name f t).2.savedStates = t.savedStates) ∧
    (∀ s, getServer t name = some s → s.status = ServerStatus.stopped →
      (stopDevServer oe te td ts name f t).2.savedStates = t.savedStates) ∧
    (∀ s, getServer t name = some s → s.status ≠ ServerStatus.stopped →
      ∃ snap, (stopDevServer oe te td ts name f t).2.savedStates =
        t.savedStates ++ [snap]) := by
  refine ⟨?_, ?_, ?_, ?_, ?_, ?_⟩
  · intro s hs hrun
    rw [startDevServerFull]
    simp only [hs]
    rw [if_pos hrun]
  · intro hfree hexit
    rw [startFull_spawn_of_free o now te td args t hfree, startSpawnPhase]
    simp only [hexit, reduceIte]
    constructor
    · rw [setServerStatus_savedStates, setServer_savedStates]
    · rw [setServerStatus_savedStates, addServerLog_savedStates,
        setServerStatus_savedStates, setServer_savedStates]
  · intro hfree hexit
    rw [startFull_spawn_of_free o now te td args t hfree, startSpawnPhase]
    simp only [hexit, Bool.false_eq_true, reduceIte]
    have hgen : ∀ T : DevServerTool, T.savedStates = t.savedStates →
        ∃ snap, (saveState T).savedStates = t.savedStates ++ [snap] := by
      intro T hT
      refine ⟨serializeServers T, ?_⟩
      show T.savedStates ++ [serializeServers T] = t.savedStates ++ [serializeServers T]
      rw [hT]
    apply hgen
    rw [setServerStatus_savedStates, setServer_savedStates]
  · intro h
    rw [stop_not_found oe te td ts name f t h]
  · intro s hs hstop
    rw [stop_already_stopped oe te td ts name f t s hs hstop]
  · intro s hs hns
    exact (stop_effective oe te td ts name f t s hs hns).2.2

/-- Witness for `persist_on_ops_spec`: an effective stop of the running
`"web"` server persists the registry once. -/
theorem persist_on_ops_spec_witness :
    getServer wreg "web" = some wregServer ∧
    wregServer.status ≠ ServerStatus.stopped ∧
    (∃ snap, (stopDevServer false "T" "D" "S" "web" false wreg).2.savedStates =
      wreg.savedStates ++ [snap]) :=
  ⟨rfl, by decide,
   (persist_on_ops_spec ⟨some 1, false⟩ 0 "T" "D" {} wreg false "S" "web" false).2.2.2.2.2
     wregServer rfl (by decide)⟩

/-- C4 counterexample: a start whose child exits within the confirmation
window returns the failure text without ever serializing the registry —
the persisted-state history stays empty at return and after the callback
queue drains. -/
theorem start_failure_no_save_cex :
    (startDevServerFull ⟨some 42, true⟩ 0 "T" "1, signal null" {} {}).result =
      startFailedText "default" ∧
    (startDevServerFull ⟨some 42, true⟩ 0 "T" "1, signal null" {} {}).atReturn.savedStates = [] ∧
    (startDevServerFull ⟨some 42, true⟩ 0 "T" "1, signal null" {} {}).settled.savedStates = [] :=
  ⟨by decide, by decide, by decide⟩

/-! ### Process supervisor: state persistence round-trip (C3) -/

theorem serializeServers_eq_map (t : DevServerTool)
    (hpid : ∀ g ∈ t.servers, g.2.pid ≠ none ∧ g.2.pid ≠ some 0) :
    serializeServers t = t.servers.map (fun g => serializedOf g.2) := by
  rw [serializeServers]
  generalize t.servers = l at hpid ⊢
  induction l with
  | nil => rfl
  | cons g tl ih =>
    rw [List.filterMap_cons, List.map_cons]
    obtain ⟨h1, h2⟩ := hpid g (by simp)
    rcases hp : g.2.pid with _ | p
    · exact absurd hp h1
    · have hp0 : p ≠ 0 := by
        intro h
        exact h2 (by rw [hp, h])
      simp only [hp, hp0, ne_eq, not_false_iff, if_pos, reduceIte]
      rw [ih (fun x hx => hpid x (by simp [hx]))]
      have : serializedOf g.2 =
          { name := g.2.name, pid := p, command := g.2.command, port := g.2.port,
            cwd := g.2.cwd, startTime := g.2.startTime,
            logs := g.2.logs.drop (g.2.logs.length - 10), status := g.2.status } := by
        simp [serializedOf, hp]
      rw [this]

theorem foldl_setServer_fresh (alive : Nat → Bool) (data : List SerializedDevServer) :
    ∀ t0 : DevServerTool,
    (∀ ser ∈ data, t0.servers.any (fun g => g.1 == ser.name) = false) →
    (data.map SerializedDevServer.name).Nodup →
    (data.foldl (fun t ser => setServer t ser.name (reattachedOf alive ser)) t0).servers =
      t0.servers ++ data.map (fun ser => (ser.name, reattachedOf alive ser)) := by
  induction data with
  | nil =>
    intro t0 _ _
    simp
  | cons ser tl ih =>
    intro t0 hfresh hnd
    rw [List.foldl_cons]
    have hser := hfresh ser (by simp)
    have hset : (setServer t0 ser.name (reattachedOf alive ser)).servers =
        t0.servers ++ [(ser.name, reattachedOf alive ser)] := by
      rw [setServer]
      simp [hser]
    have hnd' : (tl.map SerializedDevServer.name).Nodup := by
      rw [List.map_cons] at hnd
      exact hnd.of_cons
    have hni : ser.name ∉ tl.map SerializedDevServer.name := by
      rw [List.map_cons] at hnd
      exact (List.nodup_cons.1 hnd).1
    have hfresh' : ∀ s' ∈ tl,
        (setServer t0 ser.name (reattachedOf alive ser)).servers.any
          (fun g => g.1 == s'.name) = false := by
      intro s' hs'
      rw [hset, List.any_append]
      have h1 := hfresh s' (by simp [hs'])
      have hne : (ser.name == s'.name) = false := by
        refine beq_eq_false_iff_ne.2 ?_
        intro he
        exact hni (he ▸ List.mem_map_of_mem SerializedDevServer.name hs')
      simp [h1, hne]
    rw [ih _ hfresh' hnd', hset]
    simp

theorem loadState_servers (alive : Nat → Bool) (data : List SerializedDevServer)
    (hnd : (data.map SerializedDevServer.name).Nodup) :
    (loadState alive data).servers = data.map (fun ser => (ser.name, reattachedOf alive ser)) := by
  rw [loadState, foldl_setServer_fresh alive data {} (fun _ _ => rfl) hnd]
  rfl

theorem find?_assoc_map (l : List (String × DevServer)) (F : String × DevServer → DevServer)
    (hnd : (l.map Prod.fst).Nodup) (g : String × DevServer) (hg : g ∈ l) :
    (l.map (fun x => (x.1, F x))).find? (fun x => x.1 == g.1) = some (g.1, F g) := by
  induction l with
  | nil => cases hg
  | cons a tl ih =>
    rw [List.map_cons]
    rcases List.mem_cons.1 hg with rfl | hgt
    · rw [List.find?_cons_of_pos _ (by simp)]
    · have hni : a.1 ∉ tl.map Prod.fst := by
        rw [List.map_cons] at hnd
        exact (List.nodup_cons.1 hnd).1
      have hane : (a.1 == g.1) = false := by
        refine beq_eq_false_iff_ne.2 ?_
        intro he
        exact hni (he ▸ List.mem_map_of_mem Prod.fst hgt)
      rw [List.find?_cons_of_neg _ (by simp [hane])]
      exact ih (by rw [List.map_cons] at hnd; exact hnd.of_cons) hgt

/-- C3 (amended): serializing the registry and loading it into a fresh one
reconstructs exactly the entries that held a resolved (truthy) pid — the
set of names is preserved whenever every entry has one — and each
reconstructed entry keeps its pid and gets status `running` when the pid
probes alive and `stopped` otherwise. (`saveState` skips entries without a
truthy `process.pid`, so a registry holding such an entry loses it across
the round trip — see the counterexample.) -/
theorem state_roundtrip_spec (t : DevServerTool) (alive : Nat → Bool)
    (hpid : ∀ g ∈ t.servers, g.2.pid ≠ none ∧ g.2.pid ≠ some 0)
    (hname : ∀ g ∈ t.servers, g.2.name = g.1)
    (hnd : (t.servers.map Prod.fst).Nodup) :
    (loadState alive (serializeServers t)).servers.map Prod.fst =
      t.servers.map Prod.fst ∧
    (∀ g ∈ t.servers, ∀ p, g.2.pid = some p →
      ∃ s', getServer (loadState alive (serializeServers t)) g.1 = some s' ∧
        s'.pid = some p ∧
        s'.status = (if alive p then ServerStatus.running else ServerStatus.stopped)) := by
  have hdata : serializeServers t = t.servers.map (fun g => serializedOf g.2) :=
    serializeServers_eq_map t hpid
  have hnames_ser : (t.servers.map (fun g => serializedOf g.2)).map SerializedDevServer.name =
      t.servers.map Prod.fst := by
    rw [List.map_map]
    apply List.map_congr_left
    intro g hg
    exact hname g hg
  have hndser :
      ((t.servers.map (fun g => serializedOf g.2)).map SerializedDevServer.name).Nodup := by
    rw [hnames_ser]
    exact hnd
  have hload : (loadState alive (serializeServers t)).servers =
      t.servers.map (fun x => (x.1, reattachedOf alive (serializedOf x.2))) := by
    rw [hdata, loadState_servers alive _ hndser, List.map_map]
    apply List.map_congr_left
    intro g hg
    show ((serializedOf g.2).name, reattachedOf alive (serializedOf g.2)) = _
    rw [show (serializedOf g.2).name = g.1 from hname g hg]
  constructor
  · rw [hload, List.map_map]
    apply List.map_congr_left
    intro g hg
    rfl
  · intro g hg p hp
    have hfind := find?_assoc_map t.servers
      (fun x => reattachedOf alive (serializedOf x.2)) hnd g hg
    refine ⟨reattachedOf alive (serializedOf g.2), ?_, ?_, ?_⟩
    · rw [getServer, hload, hfind]
      rfl
    · show some ((serializedOf g.2).pid) = some p
      simp [serializedOf, hp]
    · have hp0 : p ≠ 0 := by
        have h2 := (hpid g hg).2
        intro h
        exact h2 (by rw [hp, h])
      have hb : (p == 0) = false := beq_eq_false_iff_ne.2 hp0
      show (if isProcessAliveMock alive ((serializedOf g.2).pid) then ServerStatus.running
            else ServerStatus.stopped) = _
      simp [serializedOf, isProcessAliveMock, hp, hb]

/-- Witness for `state_roundtrip_spec`: the one-server registry with pid 42
round-trips to the same name set. -/
theorem state_roundtrip_spec_witness :
    (∀ g ∈ wreg.servers, g.2.pid ≠ none ∧ g.2.pid ≠ some 0) ∧
    (loadState (fun _ => true) (serializeServers wreg)).servers.map Prod.fst =
      wreg.servers.map Prod.fst :=
  ⟨by decide,
   (state_roundtrip_spec wreg (fun _ => true) (by decide) (by decide) (by decide)).1⟩

/-- C3 counterexample: a registry entry whose spawn produced no pid is
dropped by `saveState`, so the reloaded registry does not contain the
original name set. -/
theorem state_roundtrip_missing_pid_cex :
    wregNoPid.servers.map Prod.fst = ["a"] ∧
    (loadState (fun _ => true) (serializeServers wregNoPid)).servers.map Prod.fst = [] :=
  ⟨by decide, by decide⟩

/-! ### HTTP ingestion endpoint (C10) -/

/-- C10: the endpoint validates the four required fields by truthiness — a
submission whose `timestamp` is `0`, or whose `level`/`message`/`url` is
the empty string (or any field absent), is rejected with the 400 "Missing
required fields" response and the store is untouched; every submission
with all four fields truthy is handed to the store's `addLog` and answered
with the assigned id. -/
theorem post_browser_logs_validation (now : Nat) (b : LogSubmission) (st : LogManager) :
    (missingRequiredFields b = true →
      postBrowserLogs now b st = (PostResponse.badRequest "Missing required fields", st)) ∧
    (missingRequiredFields b = false →
      postBrowserLogs now b st =
        (PostResponse.ok (addLog now (submissionData b) st).1.id,
         (addLog now (submissionData b) st).2)) ∧
    (b.timestamp = some 0 → missingRequiredFields b = true) ∧
    (b.level = some "" → missingRequiredFields b = true) ∧
    (b.message = some "" → missingRequiredFields b = true) ∧
    (b.url = some "" → missingRequiredFields b = true) ∧
    ((b.timestamp = none ∨ b.level = none ∨ b.message = none ∨ b.url = none) →
      missingRequiredFields b = true) ∧
    ((natTruthy b.timestamp && strTruthy b.level && strTruthy b.message &&
        strTruthy b.url) = true →
      missingRequiredFields b = false) := by
  refine ⟨?_, ?_, ?_, ?_, ?_, ?_, ?_, ?_⟩
  · intro h
    rw [postBrowserLogs, if_pos h]
  · intro h
    rw [postBrowserLogs, if_neg (by simp [h])]
  · intro h
    simp [missingRequiredFields, natTruthy, h]
  · intro h
    simp [missingRequiredFields, strTruthy, h]
  · intro h
    simp [missingRequiredFields, strTruthy, h]
  · intro h
    simp [missingRequiredFields, strTruthy, h]
  · intro h
    rcases h with h | h | h | h <;>
      simp [missingRequiredFields, natTruthy, strTruthy, h]
  · intro h
    simp only [Bool.and_eq_true] at h
    obtain ⟨⟨⟨h1, h2⟩, h3⟩, h4⟩ := h
    simp [missingRequiredFields, h1, h2, h3, h4]

/-- Witness for `post_browser_logs_validation`: a submission whose
`timestamp` is present but `0` is rejected with the 400 response, and a
fully-truthy submission reaches the store. -/
theorem post_browser_logs_validation_witness :
    missingRequiredFields
        { timestamp := some 0, level := some "error",
          message := some "boom", url := some "http://localhost:3000/x" } = true ∧
    postBrowserLogs 1
        { timestamp := some 0, level := some "error",
          message := some "boom", url := some "http://localhost:3000/x" } {} =
      (PostResponse.badRequest "Missing required fields", {}) ∧
    missingRequiredFields
        { timestamp := some 5, level := some "error",
          message := some "boom", url := some "http://localhost:3000/x" } = false :=
  ⟨by decide,
   (post_browser_logs_validation 1
      { timestamp := some 0, level := some "error", message := some "boom",
        url := some "http://localhost:3000/x" } {}).1 (by decide),
   by decide⟩

end DevtoolsMCP
